import Mathlib

/-!
Verification development for the k6 execution core.

This file is a shallow embedding, in Lean 4, of the parts of the k6 sources
that the audited specification claims talk about:

* the caching DNS resolver (`src/lib/netext/resolver.go`),
* the dialer with its blacklist check (`src/unnamed/part_004`, package netext),
* configuration consolidation and the shortcut-to-executor rewrite
  (`src/unnamed/part_000`, package config),
* the progress bar renderer (`src/unnamed/part_009` and `part_010`, package pb).

Go maps are embedded as association lists with first-match lookup and
prepend-on-write (so a write shadows earlier entries, as a map overwrite
does); deletion removes every binding of the key.  Machine integers are
embedded as `Int`/`Nat` (none of the embedded code paths overflow), Go
`time.Time` as a `Nat` timestamp, `float64` in the progress bar as exact
rationals, and randomness (`math/rand`) as an explicit stream of naturals
threaded through the state.  Fallible Go calls return `Except`/`Option`.
External collaborators (the miekg/dns message types, the sdns cache, the
guregu null.v3 option types, net.IPNet) are embedded by their documented
behaviour at the granularity this code uses them.
-/

/-- IP address: family flag (`v6`) plus the numeric address. -/
structure IP where
  v6 : Bool
  addr : Nat
deriving DecidableEq

/-- DNS question type; the embedded code only ever builds A and AAAA questions. -/
inductive QType
| A
| AAAA
deriving DecidableEq

/-- DNS resource record as consumed by the resolver: A, AAAA and CNAME records
carry their payload and header TTL; anything else is `other`. -/
inductive RR
| A (ip : IP) (ttl : Nat)
| AAAA (ip : IP) (ttl : Nat)
| CNAME (target : String) (ttl : Nat)
| other
deriving DecidableEq

/-- canonicalName cache entry `(target, ttl, expiry)` (resolver.go `canonicalName` struct). -/
structure CEntry where
  name : String
  ttl : Nat
  expiry : Nat
deriving DecidableEq

/-- Resolver errors (resolver.go builds these with `errors.New`/`fmt.Errorf`). -/
inductive RErr
| unresolvable (host : String)
| tooLong (host : String)
| cycle (host : String)
| noNetwork
| notCNAME
| baseFail
deriving DecidableEq

/-- Association-list read with first-match semantics (Go map read). -/
def alGet {β : Type} : List (String × β) → String → Option β
| [], _ => none
| (a, b) :: t, k => if a = k then some b else alGet t k

/-- Association-list read keyed by question tuple (the sdns cache key
`cache.Hash(req.Question[0])` is determined by name and qtype). -/
def qGet {β : Type} : List ((String × QType) × β) → String × QType → Option β
| [], _ => none
| (a, b) :: t, k => if a = k then some b else qGet t k

/-- Association-list delete: Go `delete(m, k)` removes the binding entirely. -/
def alErase {β : Type} (l : List (String × β)) (k : String) : List (String × β) :=
  l.filter (fun p => ¬ (p.1 = k))

/-- Static environment of a resolver run: IP family availability (package
globals `ip4`/`ip6`), the BaseResolver behaviour, IP literal parsing
(`net.ParseIP`), the name-service switch and hosts file used by
`resolveLocal`, and the current time (constant during a call). -/
structure REnv where
  ip4avail : Bool
  ip6avail : Bool
  base : String → QType → Option (List RR)
  parseIP : String → Option IP
  nssFiles : Bool
  etcHosts : String → List IP
  now : Nat

/-- Mutable state of a `Resolver`: the DNS response cache keyed by question
tuple, the CNAME cache, the per-host IPv4-last-seen map, the ghost log of
questions sent to the BaseResolver, and the stream of random numbers consumed
by `resolveLocal`. -/
structure RState where
  dnsCache : List ((String × QType) × List RR)
  cname : List (String × CEntry)
  ip4 : List (String × Bool)
  queries : List (String × QType)
  rnd : List Nat
deriving DecidableEq

/-- State of a freshly constructed resolver (`NewResolver`): empty caches and
maps; `r` seeds the random stream. -/
def freshState (r : List Nat) : RState :=
  { dnsCache := [], cname := [], ip4 := [], queries := [], rnd := r }

/-- strings.ToLower, written over the character list so that it evaluates
inside the kernel. -/
def strToLower (s : String) : String :=
  ⟨s.data.map Char.toLower⟩

/-- dns.Fqdn: append a trailing dot unless already fully qualified.  (The Go
helper also handles escaped trailing backslashes, which no embedded claim
exercises.) -/
def fqdn (s : String) : String :=
  if s.data.getLast? = some '.' then s else s ++ "."

/-- normalName normalizes a domain name (resolver.go): lower-case then FQDN. -/
def normalName (name : String) : String :=
  fqdn (strToLower name)

/-- extractIP4 returns the address of an A record, else none. -/
def extractIP4 : RR → Option IP
| .A ip _ => some ip
| _ => none

/-- extractIP6 returns the address of an AAAA record, else none. -/
def extractIP6 : RR → Option IP
| .AAAA ip _ => some ip
| _ => none

/-- Loop body shared by findIP4/findIP6: first record whose extractor hits
wins; otherwise the last CNAME seen is reported. -/
def findIPAux (extract : RR → Option IP) : Option RR → List RR → Option IP × Option RR
| cn, [] => (none, cn)
| cn, rr :: rest =>
  match extract rr with
  | some ip => (some ip, none)
  | none =>
    match rr with
    | .CNAME t l => findIPAux extract (some (.CNAME t l)) rest
    | _ => findIPAux extract cn rest

/-- findIP4 returns the first IPv4 address found in rrs, alternately the last
CNAME record seen. -/
def findIP4 (rrs : List RR) : Option IP × Option RR :=
  findIPAux extractIP4 none rrs

/-- findIP6 returns the first IPv6 address found in rrs, alternately the last
CNAME record seen. -/
def findIP6 (rrs : List RR) : Option IP × Option RR :=
  findIPAux extractIP6 none rrs

/-- Cache-or-query step shared verbatim by lookup4 and lookup6
(resolver.go lines 252-262 and 277-288): consult the DNS cache under the
question key; on a miss issue the question to the BaseResolver, logging it,
and store a non-nil response under the same key. -/
def getResp (env : REnv) (s : RState) (host : String) (q : QType) :
    Option (List RR) × RState :=
  match qGet s.dnsCache (host, q) with
  | some resp => (some resp, s)
  | none =>
    match env.base host q with
    | some resp =>
      (some resp, { s with dnsCache := ((host, q), resp) :: s.dnsCache,
                           queries := (host, q) :: s.queries })
    | none => (none, { s with queries := (host, q) :: s.queries })

/-- lookup6 performs a single lookup for IPv6.  NOTE: faithful to the source,
which builds the request with `makeReq(host, dns.TypeA)` (resolver.go line
251), so the question — and hence the cache key — is the A-typed one. -/
def lookup6 (env : REnv) (s : RState) (host : String) :
    Except RErr (Option IP × Option RR) × RState :=
  match getResp env s host QType.A with
  | (none, s1) => (.error .baseFail, s1)
  | (some resp, s1) =>
    match findIP6 resp with
    | (some ip, _) => (.ok (some ip, none), s1)
    | (none, some cn) => (.ok (none, some cn), s1)
    | (none, none) => (.ok (none, none), s1)

/-- lookup4 performs a single lookup for IPv4 (question type A). -/
def lookup4 (env : REnv) (s : RState) (host : String) :
    Except RErr (Option IP × Option RR) × RState :=
  match getResp env s host QType.A with
  | (none, s1) => (.error .baseFail, s1)
  | (some resp, s1) =>
    match findIP4 resp with
    | (some ip, _) => (.ok (some ip, none), s1)
    | (none, some cn) => (.ok (none, some cn), s1)
    | (none, none) => (.ok (none, none), s1)

/-- lookup64 performs a single lookup preferring IPv6; on finding an IPv4
address it records the host as IPv4-last-seen. -/
def lookup64 (env : REnv) (s : RState) (host : String) :
    Except RErr (Option IP × Option RR) × RState :=
  match lookup6 env s host with
  | (.error e, s1) => (.error e, s1)
  | (.ok (some ip, _), s1) => (.ok (some ip, none), s1)
  | (.ok (none, some cn), s1) => (.ok (none, some cn), s1)
  | (.ok (none, none), s1) =>
    match lookup4 env s1 host with
    | (.error e, s2) => (.error e, s2)
    | (.ok (some ip, _), s2) =>
      (.ok (some ip, none), { s2 with ip4 := (host, true) :: s2.ip4 })
    | (.ok (none, some cn), s2) => (.ok (none, some cn), s2)
    | (.ok (none, none), s2) => (.error (.unresolvable host), s2)

/-- lookup46 performs a single lookup preferring IPv4; when IPv4 yields
nothing the host's IPv4-last-seen flag is reset before trying IPv6. -/
def lookup46 (env : REnv) (s : RState) (host : String) :
    Except RErr (Option IP × Option RR) × RState :=
  match lookup4 env s host with
  | (.error e, s1) => (.error e, s1)
  | (.ok (some ip, _), s1) => (.ok (some ip, none), s1)
  | (.ok (none, some cn), s1) => (.ok (none, some cn), s1)
  | (.ok (none, none), s1) =>
    match lookup6 env { s1 with ip4 := (host, false) :: s1.ip4 } host with
    | (.error e, s2) => (.error e, s2)
    | (.ok (some ip, _), s2) => (.ok (some ip, none), s2)
    | (.ok (none, some cn), s2) => (.ok (none, some cn), s2)
    | (.ok (none, none), s2) => (.error (.unresolvable host), s2)

/-- lookup performs a single lookup in the most efficient order, dispatching
on available IP families and the host's IPv4-last-seen flag. -/
def lookup (env : REnv) (s : RState) (host : String) :
    Except RErr (Option IP × Option RR) × RState :=
  if env.ip6avail && env.ip4avail then
    if (alGet s.ip4 host).getD false then lookup46 env s host
    else lookup64 env s host
  else if env.ip6avail then
    match lookup6 env s host with
    | (.error e, s1) => (.error e, s1)
    | (.ok (some ip, _), s1) => (.ok (some ip, none), s1)
    | (.ok (none, some cn), s1) => (.ok (none, some cn), s1)
    | (.ok (none, none), s1) => (.error (.unresolvable host), s1)
  else if env.ip4avail then
    match lookup4 env s host with
    | (.error e, s1) => (.error e, s1)
    | (.ok (some ip, _), s1) => (.ok (some ip, none), s1)
    | (.ok (none, some cn), s1) => (.ok (none, some cn), s1)
    | (.ok (none, none), s1) => (.error (.unresolvable host), s1)
  else
    (.error .noNetwork, s)

/-- calculateExpiry: TTL of the record and its expiry relative to now. -/
def calculateExpiry (env : REnv) (rr : RR) : Nat × Nat :=
  let ttl := match rr with
    | .A _ t => t
    | .AAAA _ t => t
    | .CNAME _ t => t
    | .other => 0
  (ttl, env.now + ttl)

/-- resolveName maps a domain name to an IP address, following the CNAME
chain up to depth steps, caching each link, and failing on a cycle. -/
def resolveName (env : REnv) (s : RState) (requested name : String)
    (depth : Nat) (observed : List String) : Except RErr IP × RState :=
  match lookup env s name with
  | (.error e, s1) => (.error e, s1)
  | (.ok (some ip, _), s1) => (.ok ip, s1)
  | (.ok (none, none), s1) => (.error (.unresolvable requested), s1)
  | (.ok (none, some cn), s1) =>
    match depth with
    | 0 => (.error (.tooLong requested), s1)
    | d + 1 =>
      match cn with
      | .CNAME target ttl0 =>
        if target ∈ observed then (.error (.cycle requested), s1)
        else
          let (ttl, expiry) := calculateExpiry env (.CNAME target ttl0)
          resolveName env
            { s1 with cname := (name, ⟨target, ttl, expiry⟩) :: s1.cname }
            requested target d (target :: observed)
      | _ => (.error .notCNAME, s1)

/-- Loop of canonicalName: follow cached CNAME links, purging an expired
entry on read, erroring when the depth budget is exhausted or a cycle is
seen.  The Go for-loop re-reads the map each iteration; here each iteration
is one recursive step on the remaining depth. -/
def canonicalLoop (env : REnv) (s : RState) (orig cname : String)
    (depth : Nat) (observed : List String) : Except RErr String × RState :=
  match alGet s.cname cname with
  | none => (.ok cname, s)
  | some entry =>
    if entry.expiry < env.now then
      (.ok cname, { s with cname := alErase s.cname cname })
    else
      match depth with
      | 0 => (.error (.tooLong orig), s)
      | d + 1 =>
        if entry.name ∈ observed then (.error (.cycle orig), s)
        else canonicalLoop env s orig entry.name d (entry.name :: observed)

/-- canonicalName reports the best current knowledge about a canonical name
(resolver.go): normalize, then follow the CNAME cache. -/
def canonicalName (env : REnv) (s : RState) (name : String) (depth : Nat) :
    Except RErr String × RState :=
  canonicalLoop env s name (normalName name) depth [normalName name]

/-- resolveLocal attempts a local resolution from the hosts file, active only
when the name-service switch lists the `files` source; with several addresses
one is picked at random (consuming the random stream). -/
def resolveLocal (env : REnv) (s : RState) (host : String) :
    Option IP × RState :=
  if env.nssFiles then
    let ips := env.etcHosts host
    match ips with
    | [] => (none, s)
    | _ :: _ =>
      let k := (s.rnd.headD 0) % ips.length
      (some (ips.getD k ⟨false, 0⟩), { s with rnd := s.rnd.tail })
  else (none, s)

/-- Resolve maps a host string to an IP address: IP literals verbatim, then
the local hosts source, then canonicalization via the CNAME cache, then the
DNS chase. -/
def Resolve (env : REnv) (s : RState) (host : String) (depth : Nat) :
    Except RErr IP × RState :=
  match env.parseIP host with
  | some ip => (.ok ip, s)
  | none =>
    match resolveLocal env s host with
    | (some ip, s1) => (.ok ip, s1)
    | (none, s1) =>
      match canonicalName env s1 host depth with
      | (.error e, s2) => (.error e, s2)
      | (.ok h2, s2) => resolveName env s2 h2 h2 depth []

/-!
Configuration consolidation (`src/unnamed/part_000`, package config).

The option types come from gopkg.in/guregu/null.v3 and from lib/types.  They
are two-state: a payload plus a `Valid` flag; an explicit JSON `null`
unmarshals to the zero payload with `Valid = false`, indistinguishable from
an absent key (guregu null.v3 `UnmarshalJSON`).  Durations are nanosecond
counts, embedded as `Int` (the code compares `Duration <= 0`).
-/

/-- guregu null.v3 nullable integer: payload plus validity flag. -/
structure NullInt where
  int : Int
  valid : Bool
deriving DecidableEq

/-- guregu null.v3 nullable boolean. -/
structure NullBool where
  bool : Bool
  valid : Bool
deriving DecidableEq

/-- lib/types NullDuration: nanosecond count plus validity flag. -/
structure NullDuration where
  dur : Int
  valid : Bool
deriving DecidableEq

/-- A JSON field occurrence in a config source: absent, explicit null, or an
integer value. -/
inductive JField
| missing
| null
| num (n : Int)
deriving DecidableEq

/-- guregu null.v3 `Int.UnmarshalJSON` discipline: an absent key leaves the
zero value, an explicit `null` sets `Valid = false` with zero payload, and a
number sets the payload with `Valid = true`.  Explicit null and absent are
therefore indistinguishable after parsing. -/
def unmarshalNullInt : JField → NullInt
| .missing => ⟨0, false⟩
| .null => ⟨0, false⟩
| .num n => ⟨n, true⟩

/-- lib.Stage: an optional duration and a target VU count. -/
structure Stage where
  duration : NullDuration
  target : NullInt
deriving DecidableEq

/-- Stage of a scheduler config (lib/scheduler `Stage`). -/
structure SchedStage where
  duration : NullDuration
  target : NullInt
deriving DecidableEq

/-- Modelled from the spec: the five-case executor-config variant of
lib/scheduler, whose constructors (`NewSharedIterationsConfig`,
`NewConstantLoopingVUsConfig`, `NewVariableLoopingVUsConfig`,
`NewPerVUIterationsConfig`) are not under src/; each case carries the fields
the spec's shortcut table names. -/
inductive ExecutorConfig
| sharedIterations (vus iterations : NullInt) (maxDuration : NullDuration)
| constantLoopingVUs (vus : NullInt) (duration : NullDuration)
| variableLoopingVUs (startVUs : NullInt) (stages : List SchedStage)
| perVUIterations (vus iterations : NullInt)
deriving DecidableEq

/-- Modelled from the spec: default MaxDuration a fresh shared-iterations
config carries before the shortcut overrides it (the constructor is not
under src/; the value is left symbolic as `invalid` since no claim reads
it). -/
def sharedIterationsDefaultMaxDuration : NullDuration := ⟨0, false⟩

/-- Modelled from the spec: defaults of the per-VU iterations executor used
when no execution parameters are given: 1 VU, 1 iteration. -/
def defaultPerVUIterations : ExecutorConfig :=
  .perVUIterations ⟨1, true⟩ ⟨1, true⟩

/-- lib.DefaultSchedulerName. -/
def DefaultSchedulerName : String := "default"

/-- scheduler.ConfigMap: named executor configs.  Go's `nil` map and empty
map are distinguished (`deriveExecutionConfig` checks both), hence the
`Option`. -/
def ConfigMap := List (String × ExecutorConfig)

/-- User options the execution-shortcut rewrite and the merge read
(lib.Options carries many more; only the claim-relevant ones are
embedded). -/
structure Options where
  vus : NullInt
  iterations : NullInt
  duration : NullDuration
  stages : List Stage
  execution : Option ConfigMap

/-- Modelled from the spec: `lib.Options.Apply` is not under src/; per the
spec, merging is right-biased on the set-ness of each option, which for the
two-state guregu/types options is their `Valid` flag — the same per-field
pattern `Config.Apply` in src uses for its own nullable fields.  The slice
field `stages` replaces when non-empty. -/
def Options.Apply (o cfg : Options) : Options :=
  { vus := if cfg.vus.valid then cfg.vus else o.vus
    iterations := if cfg.iterations.valid then cfg.iterations else o.iterations
    duration := if cfg.duration.valid then cfg.duration else o.duration
    stages := if cfg.stages.length > 0 then cfg.stages else o.stages
    execution := if cfg.execution.isSome then cfg.execution else o.execution }

/-- cmd/config Config: embedded options plus run-level toggles (collector
configs are out of claim scope and omitted). -/
structure Config where
  opts : Options
  out : List String
  linger : NullBool
  noUsageReport : NullBool
  noThresholds : NullBool
  noSummary : NullBool

/-- Config.Apply (part_000 lines 74-98): delegate the options merge, then
right-biased per-field merge on `Valid`; the `out` slice replaces when
non-empty. -/
def Config.Apply (c cfg : Config) : Config :=
  { opts := c.opts.Apply cfg.opts
    out := if cfg.out.length > 0 then cfg.out else c.out
    linger := if cfg.linger.valid then cfg.linger else c.linger
    noUsageReport := if cfg.noUsageReport.valid then cfg.noUsageReport else c.noUsageReport
    noThresholds := if cfg.noThresholds.valid then cfg.noThresholds else c.noThresholds
    noSummary := if cfg.noSummary.valid then cfg.noSummary else c.noSummary }

/-- Zero Config, the fold seed of `Get`. -/
def emptyConfig : Config :=
  { opts := { vus := ⟨0, false⟩, iterations := ⟨0, false⟩,
              duration := ⟨0, false⟩, stages := [], execution := none }
    out := [], linger := ⟨false, false⟩, noUsageReport := ⟨false, false⟩,
    noThresholds := ⟨false, false⟩, noSummary := ⟨false, false⟩ }

/-- Get (part_000 lines 295-310): left-to-right fold of `Config.Apply` over
the sources.  (`applyDefault` only touches the system-tag set, which is not
embedded.) -/
def configGet (sources : List Config) : Config :=
  sources.foldl Config.Apply emptyConfig

/-- Deprecation warnings `deriveExecutionConfig` logs. -/
inductive Warning
| iterationsAndStages
| durationAndStages
| infiniteDuration
| executionIgnored
deriving DecidableEq

/-- getSharedIterationsExecution: a single default-named shared-iterations
executor with the given vus and iterations, MaxDuration overridden only when
the duration shortcut is set. -/
def getSharedIterationsExecution (iterations : NullInt) (duration : NullDuration)
    (vus : NullInt) : ConfigMap :=
  [(DefaultSchedulerName,
    .sharedIterations vus iterations
      (if duration.valid then duration else sharedIterationsDefaultMaxDuration))]

/-- getConstantLoopingVUsExecution: a single default-named constant-VUs
executor. -/
def getConstantLoopingVUsExecution (duration : NullDuration) (vus : NullInt) :
    ConfigMap :=
  [(DefaultSchedulerName, .constantLoopingVUs vus duration)]

/-- getVariableLoopingVUsExecution: a single default-named ramping-VUs
executor keeping only the stages with a valid duration. -/
def getVariableLoopingVUsExecution (stages : List Stage) (startVUs : NullInt) :
    ConfigMap :=
  [(DefaultSchedulerName,
    .variableLoopingVUs startVUs
      ((stages.filter (fun st => st.duration.valid)).map
        (fun st => ⟨st.duration, st.target⟩)))]

/-- deriveExecutionConfig (part_000 lines 211-262): translate the shortcut
options into the canonical Execution map; deprecation conflicts are logged
as warnings, never errors.  Returns the rewritten config and the warnings
logged. -/
def deriveExecutionConfig (conf : Config) : Config × List Warning :=
  if conf.opts.iterations.valid then
    ({ conf with opts := { conf.opts with
        execution := some (getSharedIterationsExecution conf.opts.iterations
          conf.opts.duration conf.opts.vus) } },
     if conf.opts.stages.length > 0 then [.iterationsAndStages] else [])
  else if conf.opts.duration.valid then
    let w := if conf.opts.stages.length > 0 then [Warning.durationAndStages] else []
    if conf.opts.duration.dur ≤ 0 then
      (conf, w ++ [.infiniteDuration])
    else
      ({ conf with opts := { conf.opts with
          execution := some (getConstantLoopingVUsExecution conf.opts.duration
            conf.opts.vus) } }, w)
  else if conf.opts.stages.length > 0 then
    ({ conf with opts := { conf.opts with
        execution := some (getVariableLoopingVUsExecution conf.opts.stages
          conf.opts.vus) } }, [])
  else
    let w := if conf.opts.execution.isSome then [Warning.executionIgnored] else []
    if (conf.opts.execution.getD []).length = 0 then
      ({ conf with opts := { conf.opts with
          execution := some [(DefaultSchedulerName, defaultPerVUIterations)] } }, w)
    else (conf, w)

/-!
Progress bar (`src/unnamed/part_009` and `part_010`, package pb).  The Go
`float64` progress value is embedded as an exact rational: the operations
involved — comparisons against 0 and 1, one multiplication by the integer
width, truncation to int — are monotone and exact at the bounds, so the
interval claims proved here hold of the IEEE evaluation as well.
-/

/-- Clampf (part_010 lines 135-144) restricted to the range [min, max]. -/
def Clampf (val mn mx : ℚ) : ℚ :=
  if val < mn then mn else if val > mx then mx else val

/-- Go float-to-int conversion: truncation toward zero. -/
def truncToInt (q : ℚ) : Int :=
  if 0 ≤ q then ⌊q⌋ else ⌈q⌉

/-- strings.Repeat: panics (here: `none`) on a negative count. -/
def goRepeat (s : String) (n : Int) : Option String :=
  if n < 0 then none else some (String.join (List.replicate n.toNat s))

/-- ProgressBar fields read by Render: the width (always `defaultWidth = 40`
in the constructor), the value and right text the progress callback returns
(when one is set), an optional hijack string, and the left text
(`renderLeft`'s output, whose trimming logic is out of claim scope). -/
structure ProgressBar where
  width : Int
  leftText : String
  progressFn : Option (ℚ × String)
  hijack : Option String

/-- Progress value after the clamp step of Render (part_009 lines 150-160):
0 when no callback is set, otherwise the callback's value clamped to
[0, 1]. -/
def clampedProgress (pb : ProgressBar) : ℚ :=
  match pb.progressFn with
  | some (p, _) => Clampf p 0 1
  | none => 0

/-- Filled-cell count of Render (part_009 lines 162-163):
`int(float64(space) * progress)` with `space = width - 2`. -/
def renderFilled (pb : ProgressBar) : Int :=
  truncToInt ((pb.width - 2 : Int) * clampedProgress pb)

/-- Render (part_009 lines 138-190): assemble the bar; `none` models a
strings.Repeat panic on a negative count.  The thread locking and the
logged clamp warning are side effects with no bearing on the output. -/
def Render (pb : ProgressBar) (isTTY : Bool) : Option String :=
  match pb.hijack with
  | some s => some s
  | none =>
    let right := match pb.progressFn with
      | some (_, r) => " " ++ r
      | none => ""
    let space : Int := pb.width - 2
    let filled : Int := renderFilled pb
    let fillingCaret : Option (String × String) :=
      if 0 < filled then
        if filled < space then
          match goRepeat "=" (filled - 1) with
          | some f => some (f, ">")
          | none => none
        else
          match goRepeat "=" filled with
          | some f => some (f, "")
          | none => none
      else some ("", "")
    let paddingOpt : Option String :=
      if filled < space then goRepeat "-" (space - filled) else some ""
    match fillingCaret, paddingOpt with
    | some (filling, caret), some padding =>
      let right2 := if isTTY then "\x1b[K" ++ right else right
      some (pb.leftText ++ " [" ++ filling ++ caret ++ padding ++ "]" ++ right2)
    | _, _ => none

/-!
Dialer (`src/unnamed/part_004`, package netext).  Its resolve chain
(`resolve`, `canonicalName`, `resolveName`, `lookup*`, `findIP*`) duplicates
the resolver.go code embedded above verbatim, except that on a BaseResolver
error the dialer stores the nil response in the cache — which its own cache
reads treat exactly like an absent entry — so the resolver embedding is
reused for it.  The dialer has no `resolveLocal` step.
-/

/-- lib.IPNet wrapping net.IPNet: family, masked base address and prefix
length; `contains` is net.IPNet.Contains — family match plus equality of the
masked high bits. -/
structure IPNet where
  v6 : Bool
  base : Nat
  maskBits : Nat
deriving DecidableEq

/-- net.IPNet.Contains for the embedded IPNet. -/
def IPNet.contains (nt : IPNet) (ip : IP) : Bool :=
  let width := if nt.v6 then 128 else 32
  ip.v6 == nt.v6 && ip.addr / 2 ^ (width - nt.maskBits) == nt.base / 2 ^ (width - nt.maskBits)

/-- Connection handle returned by the wrapped net.Dialer. -/
structure Conn where
  ip : IP
  port : String
deriving DecidableEq

/-- Dialer errors: the blacklist rejection (BlackListedIPError with the IP
and the matching network), a propagated resolver error, a failure of the
wrapped dialer, and the panic on an address without a colon. -/
inductive DErr
| blacklisted (ip : IP) (nt : IPNet)
| resolveErr (e : RErr)
| dialFailed
| malformedAddr
deriving DecidableEq

/-- Static environment of a Dialer: the resolver environment for its resolve
chain, the Hosts option map, the blacklist, and the wrapped
net.Dialer.DialContext behaviour. -/
structure DEnv where
  renv : REnv
  hosts : String → Option IP
  blacklist : List IPNet
  baseDial : IP → String → Except DErr Conn

/-- Rightmost index of a colon in the character list, or none
(strings.LastIndex(addr, ":")). -/
def lastColonIdx (cs : List Char) : Option Nat :=
  match cs with
  | [] => none
  | c :: rest =>
    match lastColonIdx rest with
    | some i => some (i + 1)
    | none => if c = ':' then some 0 else none

/-- Split `addr` at its last colon into host and port
(`addr[:delimiter]`, `addr[delimiter+1:]`); `none` when there is no colon
(where the Go code would panic slicing `addr[:-1]`). -/
def splitAddr (addr : String) : Option (String × String) :=
  match lastColonIdx addr.toList with
  | none => none
  | some i =>
    some (⟨addr.toList.take i⟩, ⟨addr.toList.drop (i + 1)⟩)

/-- Dialer.resolve (part_004 lines 212-223): IP literals verbatim, then
canonicalization via the CNAME cache, then the DNS chase; no local-hosts
step. -/
def dialerResolve (env : REnv) (s : RState) (host : String) (depth : Nat) :
    Except RErr IP × RState :=
  match env.parseIP host with
  | some ip => (.ok ip, s)
  | none =>
    match canonicalName env s host depth with
    | (.error e, s1) => (.error e, s1)
    | (.ok h2, s1) => resolveName env s1 h2 h2 depth []

/-- Host-to-IP step of DialContext (part_004 lines 182-190): the Hosts
option map is consulted before DNS resolution at depth 10. -/
def dialerLookupIP (env : DEnv) (s : RState) (host : String) :
    Except DErr IP × RState :=
  match env.hosts host with
  | some ip => (.ok ip, s)
  | none =>
    match dialerResolve env.renv s host 10 with
    | (.ok ip, s1) => (.ok ip, s1)
    | (.error e, s1) => (.error (.resolveErr e), s1)

/-- First blacklist network containing the IP (the `for _, ipnet := range
d.Blacklist` loop returns on the first match). -/
def firstBlacklistMatch (blacklist : List IPNet) (ip : IP) : Option IPNet :=
  blacklist.find? (fun nt => nt.contains ip)

/-- DialContext (part_004 lines 177-207): split the address, resolve the
host (Hosts option first), reject blacklisted IPs with BlackListedIPError
before dialing, otherwise dial the resolved IP.  `dials` is a ghost log of
connection attempts made through the wrapped dialer. -/
def DialContext (env : DEnv) (s : RState) (dials : List (IP × String))
    (addr : String) : Except DErr Conn × RState × List (IP × String) :=
  match splitAddr addr with
  | none => (.error .malformedAddr, s, dials)
  | some (host, port) =>
    match dialerLookupIP env s host with
    | (.error e, s1) => (.error e, s1, dials)
    | (.ok ip, s1) =>
      match firstBlacklistMatch env.blacklist ip with
      | some nt => (.error (.blacklisted ip nt), s1, dials)
      | none => (env.baseDial ip port, s1, (ip, port) :: dials)

/-!
Claim theorems.
-/

/-- Concrete environment exercising the lookup6 cache-key bug: the zone has
an A record for `x.` and an AAAA record would only be served for an
AAAA-typed question. -/
def envC1 : REnv :=
  { ip4avail := true, ip6avail := true
    base := fun h q =>
      if h = "x." then
        match q with
        | QType.A => some [RR.A ⟨false, 11⟩ 60]
        | QType.AAAA => some [RR.AAAA ⟨true, 22⟩ 60]
      else none
    parseIP := fun _ => none, nssFiles := false, etcHosts := fun _ => [],
    now := 0 }

/-- C1: the IPv6 lookup path issues an A-typed question, not an AAAA one,
and stores the response under the A-typed key — the very key lookup4 uses,
so a subsequent lookup4 for the same name is served from that entry without
a second BaseResolver query.  This refutes the claimed AAAA question tuple
and distinct cache keys; the spec itself flags the A-typed key as a bug of
the source. -/
theorem c1_lookup6_issues_A_query :
    ((lookup6 envC1 (freshState []) "x.").2.queries = [("x.", QType.A)]) ∧
    (qGet (lookup6 envC1 (freshState []) "x.").2.dnsCache ("x.", QType.A) =
      some [RR.A ⟨false, 11⟩ 60]) ∧
    (qGet (lookup6 envC1 (freshState []) "x.").2.dnsCache ("x.", QType.AAAA) = none) ∧
    ((lookup4 envC1 (lookup6 envC1 (freshState []) "x.").2 "x.").2.queries =
      [("x.", QType.A)]) := by
  refine ⟨rfl, rfl, rfl, rfl⟩

/-- Config source `file={vus:10}`. -/
def fileCfg : Config :=
  { emptyConfig with opts := { emptyConfig.opts with vus := unmarshalNullInt (.num 10) } }

/-- Config source `env={vus:null}`: the explicit null parses to an invalid
option. -/
def envNullCfg : Config :=
  { emptyConfig with opts := { emptyConfig.opts with vus := unmarshalNullInt .null } }

/-- C2 counterexample: consolidating `file={vus:10}`, `env={vus:null}`,
`cli={}` yields `vus=10` and still set — not `vus=null` as claimed, because
the two-state option type parses an explicit null to `Valid=false`, which
loses the merge. -/
theorem c2_null_override_counterexample :
    (configGet [fileCfg, envNullCfg, emptyConfig]).opts.vus = ⟨10, true⟩ ∧
    ((configGet [fileCfg, envNullCfg, emptyConfig]).opts.vus.valid = true) := by
  exact ⟨rfl, rfl⟩

/-- C2 (amended): config merging is right-biased on the `Valid` predicate of
the two-state option type; an explicit null parses to an invalid option and
therefore does not override a concrete left-hand value, so the
file/env/cli consolidation of the scenario yields `vus=10`. -/
theorem c2_merge_right_biased_on_valid (l r : Config) :
    (r.opts.vus.valid = true → (l.Apply r).opts.vus = r.opts.vus) ∧
    (r.opts.vus.valid = false → (l.Apply r).opts.vus = l.opts.vus) ∧
    unmarshalNullInt JField.null = ⟨0, false⟩ ∧
    (configGet [fileCfg, envNullCfg, emptyConfig]).opts.vus = ⟨10, true⟩ := by
  refine ⟨fun h => ?_, fun h => ?_, rfl, rfl⟩
  · simp [Config.Apply, Options.Apply, h]
  · simp [Config.Apply, Options.Apply, h]

/-- Witness for the amended C2 at concrete configs: a set right-hand vus
replaces, an invalid (null-parsed) one keeps the left value. -/
theorem c2_merge_witness :
    (fileCfg.Apply { emptyConfig with
      opts := { emptyConfig.opts with vus := ⟨5, true⟩ } }).opts.vus = ⟨5, true⟩ ∧
    (fileCfg.Apply envNullCfg).opts.vus = fileCfg.opts.vus := by
  constructor
  · exact (c2_merge_right_biased_on_valid fileCfg _).1 rfl
  · exact (c2_merge_right_biased_on_valid fileCfg envNullCfg).2.1 rfl

/-- C4: when iterations is set, the rewrite produces exactly one executor,
named `default`, of shared-iterations type, carrying the config's vus and
iterations, with maxDuration set to the duration shortcut when that is set;
stages present alongside only add the deprecation warning — the iterations
shortcut still wins. -/
theorem c4_iterations_shortcut (conf : Config)
    (hit : conf.opts.iterations.valid = true) :
    ∃ md, (deriveExecutionConfig conf).1.opts.execution =
        some [(DefaultSchedulerName,
          ExecutorConfig.sharedIterations conf.opts.vus conf.opts.iterations md)] ∧
      (conf.opts.duration.valid = true → md = conf.opts.duration) ∧
      (deriveExecutionConfig conf).2 =
        (if conf.opts.stages.length > 0 then [Warning.iterationsAndStages] else []) := by
  refine ⟨if conf.opts.duration.valid then conf.opts.duration
    else sharedIterationsDefaultMaxDuration, ?_, fun hd => by simp [hd], ?_⟩
  · simp [deriveExecutionConfig, hit, getSharedIterationsExecution]
  · simp [deriveExecutionConfig, hit]

/-- Concrete config for the C4 witness: iterations and duration set, stages
present. -/
def c4conf : Config :=
  { emptyConfig with opts := { emptyConfig.opts with
      vus := ⟨7, true⟩, iterations := ⟨100, true⟩, duration := ⟨5000000000, true⟩,
      stages := [⟨⟨1000000000, true⟩, ⟨3, true⟩⟩] } }

/-- Witness for C4 at a concrete config. -/
theorem c4_iterations_shortcut_witness :
    ∃ md, (deriveExecutionConfig c4conf).1.opts.execution =
        some [(DefaultSchedulerName,
          ExecutorConfig.sharedIterations c4conf.opts.vus c4conf.opts.iterations md)] ∧
      (c4conf.opts.duration.valid = true → md = c4conf.opts.duration) ∧
      (deriveExecutionConfig c4conf).2 =
        (if c4conf.opts.stages.length > 0 then [Warning.iterationsAndStages] else []) :=
  c4_iterations_shortcut c4conf rfl

/-- C5: the shortcut rewrite is idempotent on the resulting config: applying
deriveExecutionConfig to its own output reproduces that output. -/
theorem c5_derive_idempotent (conf : Config) :
    (deriveExecutionConfig (deriveExecutionConfig conf).1).1 =
      (deriveExecutionConfig conf).1 := by
  cases hit : conf.opts.iterations.valid with
  | true => simp [deriveExecutionConfig, hit]
  | false =>
    cases hdv : conf.opts.duration.valid with
    | true =>
      by_cases hd0 : conf.opts.duration.dur ≤ 0 <;>
        simp [deriveExecutionConfig, hit, hdv, hd0]
    | false =>
      by_cases hst : conf.opts.stages.length > 0
      · simp [deriveExecutionConfig, hit, hdv, hst]
      · cases hex : conf.opts.execution with
        | none => simp [deriveExecutionConfig, hit, hdv, hst, hex]
        | some l =>
          cases l with
          | nil => simp [deriveExecutionConfig, hit, hdv, hst, hex]
          | cons p rest => simp [deriveExecutionConfig, hit, hdv, hst, hex]

/-- C7: reading a canonical-name cache entry whose expiry lies strictly
before now deletes the entry and returns the (normalized) name itself,
without following the cached link. -/
theorem c7_expired_cname_purged (env : REnv) (s : RState) (n : String)
    (e : CEntry) (depth : Nat)
    (hget : alGet s.cname (normalName n) = some e)
    (hexp : e.expiry < env.now) :
    canonicalName env s n depth =
      (.ok (normalName n), { s with cname := alErase s.cname (normalName n) }) := by
  unfold canonicalName canonicalLoop
  rw [hget]
  simp [hexp]

/-- Environment for the C7 witness: the clock reads 10. -/
def c7env : REnv :=
  { ip4avail := true, ip6avail := false, base := fun _ _ => none,
    parseIP := fun _ => none, nssFiles := false, etcHosts := fun _ => [],
    now := 10 }

/-- Resolver state for the C7 witness: one CNAME entry, expired at 5. -/
def c7state : RState :=
  { dnsCache := [], cname := [("a.", ⟨"b.", 5, 5⟩)], ip4 := [], queries := [],
    rnd := [] }

/-- Witness for C7 at a concrete expired entry. -/
theorem c7_expired_cname_purged_witness :
    alGet c7state.cname (normalName "a.") = some ⟨"b.", 5, 5⟩ ∧
    (5 : Nat) < c7env.now ∧
    canonicalName c7env c7state "a." 8 =
      (.ok (normalName "a."),
        { c7state with cname := alErase c7state.cname (normalName "a.") }) :=
  ⟨rfl, by decide,
    c7_expired_cname_purged c7env c7state "a." ⟨"b.", 5, 5⟩ 8 rfl (by decide)⟩

/-- The clamp helper really lands in [min, max] when min ≤ max. -/
theorem Clampf_mem (p : ℚ) : 0 ≤ Clampf p 0 1 ∧ Clampf p 0 1 ≤ 1 := by
  unfold Clampf
  split_ifs <;> constructor <;> linarith

/-- Render's clamped progress value lies in [0, 1] whatever the callback
returned. -/
theorem clampedProgress_mem (pb : ProgressBar) :
    0 ≤ clampedProgress pb ∧ clampedProgress pb ≤ 1 := by
  unfold clampedProgress
  cases h : pb.progressFn with
  | none => norm_num
  | some pr => exact Clampf_mem pr.1

/-- C9: Render clamps the callback value into [0, 1] before computing the
filled width, so the fill count lies between 0 and width-2 and no
strings.Repeat call ever receives a negative count (Render never hits the
panic branch), even for callback values outside [0, 1]. -/
theorem c9_render_clamped (pb : ProgressBar) (tty : Bool) (hw : 2 ≤ pb.width) :
    0 ≤ renderFilled pb ∧ renderFilled pb ≤ pb.width - 2 ∧
      (Render pb tty).isSome = true := by
  obtain ⟨hcp0, hcp1⟩ := clampedProgress_mem pb
  have hsp : (0 : ℚ) ≤ ((pb.width - 2 : Int) : ℚ) := by
    exact_mod_cast (by omega : (0 : Int) ≤ pb.width - 2)
  have hq0 : 0 ≤ ((pb.width - 2 : Int) : ℚ) * clampedProgress pb :=
    mul_nonneg hsp hcp0
  have hq1 : ((pb.width - 2 : Int) : ℚ) * clampedProgress pb ≤
      ((pb.width - 2 : Int) : ℚ) :=
    mul_le_of_le_one_right hsp hcp1
  have h0 : 0 ≤ renderFilled pb := by
    unfold renderFilled truncToInt
    rw [if_pos hq0]
    exact Int.floor_nonneg.mpr hq0
  have h1 : renderFilled pb ≤ pb.width - 2 := by
    unfold renderFilled truncToInt
    rw [if_pos hq0]
    calc ⌊((pb.width - 2 : Int) : ℚ) * clampedProgress pb⌋
        ≤ ⌊((pb.width - 2 : Int) : ℚ)⌋ := Int.floor_le_floor hq1
      _ = pb.width - 2 := Int.floor_intCast _
  refine ⟨h0, h1, ?_⟩
  cases hj : pb.hijack with
  | some str => simp [Render, hj]
  | none =>
    by_cases hpos : 0 < renderFilled pb
    · by_cases hlt : renderFilled pb < pb.width - 2
      · simp [Render, hj, goRepeat, hpos, hlt,
          show ¬ (renderFilled pb - 1 < 0) by omega,
          show ¬ (pb.width - 2 - renderFilled pb < 0) by omega]
      · simp [Render, hj, goRepeat, hpos, hlt,
          show ¬ (renderFilled pb < 0) by omega]
    · by_cases hlt : renderFilled pb < pb.width - 2
      · simp [Render, hj, goRepeat, hpos, hlt,
          show ¬ (pb.width - 2 - renderFilled pb < 0) by omega]
      · simp [Render, hj, goRepeat, hpos, hlt]

/-- Progress bar for the C9 witness: default width, callback value 3 (out of
range). -/
def c9pb : ProgressBar :=
  { width := 40, leftText := "run", progressFn := some (3, "75%"), hijack := none }

/-- Witness for C9 at the default width with an out-of-range callback
value. -/
theorem c9_render_clamped_witness :
    2 ≤ c9pb.width ∧
      (0 ≤ renderFilled c9pb ∧ renderFilled c9pb ≤ c9pb.width - 2 ∧
        (Render c9pb false).isSome = true) :=
  ⟨by decide, c9_render_clamped c9pb false (by decide)⟩

/-- C10: when the dialed address's host resolves to an IP contained in a
blacklisted network, DialContext returns BlackListedIPError carrying that IP
and a containing network, and performs no connection attempt (the ghost dial
log is unchanged). -/
theorem c10_blacklisted_ip (env : DEnv) (s s1 : RState)
    (ds : List (IP × String)) (addr host port : String) (ip : IP)
    (hsplit : splitAddr addr = some (host, port))
    (hres : dialerLookupIP env s host = (.ok ip, s1))
    (hbl : ∃ nt ∈ env.blacklist, nt.contains ip = true) :
    ∃ nt ∈ env.blacklist, nt.contains ip = true ∧
      DialContext env s ds addr = (.error (.blacklisted ip nt), s1, ds) := by
  have hfind : (firstBlacklistMatch env.blacklist ip).isSome := by
    obtain ⟨nt, hmem, hc⟩ := hbl
    unfold firstBlacklistMatch
    exact List.find?_isSome.mpr ⟨nt, hmem, hc⟩
  obtain ⟨nt, hnt⟩ := Option.isSome_iff_exists.mp hfind
  have hnt2 : env.blacklist.find? (fun x => x.contains ip) = some nt := hnt
  have hp0 := List.find?_some hnt2
  have hp : nt.contains ip = true := hp0
  refine ⟨nt, List.mem_of_find?_eq_some hnt2, hp, ?_⟩
  unfold DialContext
  rw [hsplit]
  simp only [hres, hnt]

/-- Resolver environment embedded in the C10 witness dialer. -/
def c10renv : REnv :=
  { ip4avail := true, ip6avail := false, base := fun _ _ => none,
    parseIP := fun _ => none, nssFiles := false, etcHosts := fun _ => [],
    now := 0 }

/-- Dialer environment for the C10 witness: host `h` maps to address 5 via
the Hosts option; the blacklist contains exactly that /32. -/
def c10env : DEnv :=
  { renv := c10renv
    hosts := fun hh => if hh = "h" then some ⟨false, 5⟩ else none
    blacklist := [⟨false, 5, 32⟩]
    baseDial := fun ip port => .ok ⟨ip, port⟩ }

/-- Witness for C10 at a concrete blacklisted dial. -/
theorem c10_blacklisted_ip_witness :
    ∃ nt ∈ c10env.blacklist, nt.contains ⟨false, 5⟩ = true ∧
      DialContext c10env (freshState []) [] "h:80" =
        (.error (.blacklisted ⟨false, 5⟩ nt), freshState [], []) :=
  c10_blacklisted_ip c10env (freshState []) (freshState []) [] "h:80" "h" "80"
    ⟨false, 5⟩ rfl rfl ⟨⟨false, 5, 32⟩, by decide, by decide⟩

/-- C3: for distinct names forming the CNAME cycle a→b, b→a, Resolve at
depth 5 returns the CNAME-cycle error — not the chain-too-long error and
not an IP address.  The hypotheses fix the zone, keep the local-hosts path
inactive, and require at least one usable IP family. -/
theorem c3_cname_cycle_error (env : REnv) (a b : String) (r0 : List Nat)
    (t1 t2 : Nat)
    (hparse : env.parseIP a = none)
    (hnss : env.nssFiles = false)
    (hna : normalName a = a)
    (hab : a ≠ b)
    (hzoneA : env.base a QType.A = some [RR.CNAME b t1])
    (hzoneB : env.base b QType.A = some [RR.CNAME a t2])
    (hfam : env.ip4avail = true ∨ env.ip6avail = true) :
    (Resolve env (freshState r0) a 5).1 = .error (.cycle a) := by
  have hba : b ≠ a := Ne.symm hab
  cases h6 : env.ip6avail with
  | false =>
    cases h4 : env.ip4avail with
    | false =>
      rcases hfam with h | h
      · rw [h4] at h; exact absurd h (by simp)
      · rw [h6] at h; exact absurd h (by simp)
    | true =>
      simp [Resolve, hparse, resolveLocal, hnss, canonicalName, canonicalLoop,
        freshState, alGet, hna, resolveName, lookup, h6, h4, lookup64, lookup46,
        lookup6, lookup4, getResp, qGet, findIP6, findIP4, findIPAux,
        extractIP4, extractIP6, hzoneA, hzoneB, calculateExpiry, hab, hba,
        Prod.mk.injEq]
  | true =>
    cases h4 : env.ip4avail with
    | false =>
      simp [Resolve, hparse, resolveLocal, hnss, canonicalName, canonicalLoop,
        freshState, alGet, hna, resolveName, lookup, h6, h4, lookup64, lookup46,
        lookup6, lookup4, getResp, qGet, findIP6, findIP4, findIPAux,
        extractIP4, extractIP6, hzoneA, hzoneB, calculateExpiry, hab, hba,
        Prod.mk.injEq]
    | true =>
      simp [Resolve, hparse, resolveLocal, hnss, canonicalName, canonicalLoop,
        freshState, alGet, hna, resolveName, lookup, h6, h4, lookup64, lookup46,
        lookup6, lookup4, getResp, qGet, findIP6, findIP4, findIPAux,
        extractIP4, extractIP6, hzoneA, hzoneB, calculateExpiry, hab, hba,
        Prod.mk.injEq]

/-- Environment for the C3 witness: the two-element CNAME cycle `a. → b.`,
`b. → a.`, both IP families available. -/
def c3env : REnv :=
  { ip4avail := true, ip6avail := true
    base := fun h _ =>
      if h = "a." then some [RR.CNAME "b." 60]
      else if h = "b." then some [RR.CNAME "a." 60]
      else none
    parseIP := fun _ => none, nssFiles := false, etcHosts := fun _ => [],
    now := 0 }

/-- Witness for C3 at the concrete cycle. -/
theorem c3_cname_cycle_witness :
    (Resolve c3env (freshState []) "a." 5).1 = .error (.cycle "a.") :=
  c3_cname_cycle_error c3env "a." "b." [] 60 60 rfl rfl (by decide) (by decide)
    rfl rfl (Or.inl rfl)

/-- getResp leaves the CNAME cache untouched. -/
theorem getResp_cname (env : REnv) (s : RState) (host : String) (q : QType) :
    ((getResp env s host q).2).cname = s.cname := by
  unfold getResp
  rcases hg : qGet s.dnsCache (host, q) with _ | resp
  · rcases hb : env.base host q with _ | resp <;> simp [hg, hb]
  · simp [hg]

/-- The state lookup6 returns is the one getResp produced. -/
theorem lookup6_state (env : REnv) (s : RState) (host : String) :
    (lookup6 env s host).2 = (getResp env s host QType.A).2 := by
  unfold lookup6
  rcases hg : getResp env s host QType.A with ⟨o, s1⟩
  rcases o with _ | resp
  · rfl
  · rcases hf : findIP6 resp with ⟨i, c⟩
    rcases i with _ | ip
    · rcases c with _ | cn <;> simp [hf]
    · simp [hf]

/-- The state lookup4 returns is the one getResp produced. -/
theorem lookup4_state (env : REnv) (s : RState) (host : String) :
    (lookup4 env s host).2 = (getResp env s host QType.A).2 := by
  unfold lookup4
  rcases hg : getResp env s host QType.A with ⟨o, s1⟩
  rcases o with _ | resp
  · rfl
  · rcases hf : findIP4 resp with ⟨i, c⟩
    rcases i with _ | ip
    · rcases c with _ | cn <;> simp [hf]
    · simp [hf]

/-- lookup64 leaves the CNAME cache untouched. -/
theorem lookup64_cname (env : REnv) (s : RState) (host : String) :
    ((lookup64 env s host).2).cname = s.cname := by
  have h6 : ((lookup6 env s host).2).cname = s.cname := by
    rw [lookup6_state]; exact getResp_cname env s host QType.A
  unfold lookup64
  rcases hl6 : lookup6 env s host with ⟨r6, s1⟩
  rw [hl6] at h6
  rcases r6 with e | ⟨i, c⟩
  · exact h6
  · rcases i with _ | ip
    · rcases c with _ | cn
      · have h4 : ((lookup4 env s1 host).2).cname = s1.cname := by
          rw [lookup4_state]; exact getResp_cname env s1 host QType.A
        rcases hl4 : lookup4 env s1 host with ⟨r4, s2⟩
        rw [hl4] at h4
        rcases r4 with e | ⟨i4, c4⟩
        · simp [hl4]; exact h4.trans h6
        · rcases i4 with _ | ip4v
          · rcases c4 with _ | cn4 <;> (simp [hl4]; exact h4.trans h6)
          · simp [hl4]; exact h4.trans h6
      · exact h6
    · exact h6

/-- lookup46 leaves the CNAME cache untouched. -/
theorem lookup46_cname (env : REnv) (s : RState) (host : String) :
    ((lookup46 env s host).2).cname = s.cname := by
  have h4 : ((lookup4 env s host).2).cname = s.cname := by
    rw [lookup4_state]; exact getResp_cname env s host QType.A
  unfold lookup46
  rcases hl4 : lookup4 env s host with ⟨r4, s1⟩
  rw [hl4] at h4
  rcases r4 with e | ⟨i, c⟩
  · exact h4
  · rcases i with _ | ip
    · rcases c with _ | cn
      · have h6 : ((lookup6 env { s1 with ip4 := (host, false) :: s1.ip4 } host).2).cname
            = s1.cname := by
          rw [lookup6_state]
          exact getResp_cname env { s1 with ip4 := (host, false) :: s1.ip4 } host QType.A
        rcases hl6 : lookup6 env { s1 with ip4 := (host, false) :: s1.ip4 } host with ⟨r6, s2⟩
        rw [hl6] at h6
        rcases r6 with e | ⟨i6, c6⟩
        · simp [hl6]; exact h6.trans h4
        · rcases i6 with _ | ip6v
          · rcases c6 with _ | cn6 <;> (simp [hl6]; exact h6.trans h4)
          · simp [hl6]; exact h6.trans h4
      · exact h4
    · exact h4

/-- lookup leaves the CNAME cache untouched. -/
theorem lookup_cname (env : REnv) (s : RState) (host : String) :
    ((lookup env s host).2).cname = s.cname := by
  have h6s : ((lookup6 env s host).2).cname = s.cname := by
    rw [lookup6_state]; exact getResp_cname env s host QType.A
  have h4s : ((lookup4 env s host).2).cname = s.cname := by
    rw [lookup4_state]; exact getResp_cname env s host QType.A
  unfold lookup
  by_cases hba : env.ip6avail && env.ip4avail
  · rw [if_pos hba]
    by_cases hflag : (alGet s.ip4 host).getD false
    · rw [if_pos hflag]; exact lookup46_cname env s host
    · rw [if_neg hflag]; exact lookup64_cname env s host
  · rw [if_neg hba]
    by_cases h6 : env.ip6avail
    · rw [if_pos h6]
      rcases hl6 : lookup6 env s host with ⟨r6, s1⟩
      rw [hl6] at h6s
      rcases r6 with e | ⟨i, c⟩
      · exact h6s
      · rcases i with _ | ip
        · rcases c with _ | cn <;> simpa using h6s
        · simpa using h6s
    · rw [if_neg h6]
      by_cases h4 : env.ip4avail
      · rw [if_pos h4]
        rcases hl4 : lookup4 env s host with ⟨r4, s1⟩
        rw [hl4] at h4s
        rcases r4 with e | ⟨i, c⟩
        · exact h4s
        · rcases i with _ | ip
          · rcases c with _ | cn <;> simpa using h4s
          · simpa using h4s
      · rw [if_neg h4]

/-- Each CNAME hop of resolveName caches exactly one link, so the CNAME
cache grows by at most `depth` entries: at most `depth` hops are ever
followed. -/
theorem resolveName_cname_length_le (env : REnv) (req : String) :
    ∀ (d : Nat) (s : RState) (n : String) (obs : List String),
      ((resolveName env s req n d obs).2).cname.length ≤ s.cname.length + d := by
  intro d
  induction d with
  | zero =>
    intro s n obs
    have hc := lookup_cname env s n
    rcases hl : lookup env s n with ⟨r, s1⟩
    rw [hl] at hc
    have hc2 : s1.cname = s.cname := hc
    rcases r with e | ⟨i, c⟩
    · simp [resolveName, hl, hc2]
    · rcases i with _ | ip
      · rcases c with _ | cn <;> simp [resolveName, hl, hc2]
      · simp [resolveName, hl, hc2]
  | succ d ih =>
    intro s n obs
    have hc := lookup_cname env s n
    rcases hl : lookup env s n with ⟨r, s1⟩
    rw [hl] at hc
    have hc2 : s1.cname = s.cname := hc
    rcases r with e | ⟨i, c⟩
    · simp [resolveName, hl, hc2]
    · rcases i with _ | ip
      · rcases c with _ | cn
        · simp [resolveName, hl, hc2]
        · rcases cn with ⟨ip0, t0⟩ | ⟨ip0, t0⟩ | ⟨target, ttl0⟩ | _
          · simp [resolveName, hl, hc2]
          · simp [resolveName, hl, hc2]
          · by_cases hobs : target ∈ obs
            · simp [resolveName, hl, hobs, hc2]
            · rw [resolveName.eq_def, hl]
              simp only [calculateExpiry, if_neg hobs]
              have hrec := ih { s1 with
                cname := (n, ⟨target, ttl0, env.now + ttl0⟩) :: s1.cname }
                target (target :: obs)
              simp only [List.length_cons] at hrec
              have hlen : s1.cname.length = s.cname.length :=
                congrArg List.length hc
              omega
          · simp [resolveName, hl, hc2]
      · simp [resolveName, hl, hc2]

/-- resolveName at an exhausted depth budget with a CNAME still pending
returns the chain-too-long error. -/
theorem resolveName_depth0_pending (env : REnv) (s r : RState)
    (req n : String) (obs : List String) (cn : RR)
    (hl : lookup env s n = (.ok (none, some cn), r)) :
    (resolveName env s req n 0 obs).1 = .error (.tooLong req) := by
  simp [resolveName, hl]

/-- canonicalName's loop at an exhausted depth budget with a live cached
entry still pending returns the chain-too-long error. -/
theorem canonicalLoop_depth0_pending (env : REnv) (s : RState)
    (orig n : String) (obs : List String) (e : CEntry)
    (hget : alGet s.cname n = some e) (hexp : ¬ e.expiry < env.now) :
    canonicalLoop env s orig n 0 obs = (.error (.tooLong orig), s) := by
  unfold canonicalLoop
  rw [hget]
  simp [hexp]

/-- Hop counter mirroring canonicalName's loop: 0 at a missing or expired
entry, at the exhausted budget and on a cycle; one plus the tail count per
followed link. -/
def canonicalHops (env : REnv) (s : RState) (cname : String) (depth : Nat)
    (observed : List String) : Nat :=
  match alGet s.cname cname with
  | none => 0
  | some entry =>
    if entry.expiry < env.now then 0
    else
      match depth with
      | 0 => 0
      | d + 1 =>
        if entry.name ∈ observed then 0
        else canonicalHops env s entry.name d (entry.name :: observed) + 1

/-- The canonicalName loop follows at most `depth` links. -/
theorem canonicalHops_le (env : REnv) (s : RState) :
    ∀ (d : Nat) (n : String) (obs : List String),
      canonicalHops env s n d obs ≤ d := by
  intro d
  induction d with
  | zero =>
    intro n obs
    rw [canonicalHops.eq_def]
    rcases hget : alGet s.cname n with _ | e
    · exact Nat.le_refl 0
    · simp
  | succ d ih =>
    intro n obs
    rw [canonicalHops.eq_def]
    rcases hget : alGet s.cname n with _ | e
    · exact Nat.zero_le _
    · by_cases hexp : e.expiry < env.now
      · simp [hexp]
      · by_cases hmem : e.name ∈ obs
        · simp [hexp, hmem]
        · simp only [if_neg hexp, if_neg hmem]
          exact Nat.succ_le_succ (ih e.name (e.name :: obs))

/-- C8: the depth budget strictly decreases per CNAME hop, so (i) resolveName
caches at most `depth` new links — at most `depth` hops; (ii) resolveName at
budget 0 with a CNAME pending returns the chain-too-long error; (iii) the
canonicalName loop at budget 0 with a live entry pending returns the
chain-too-long error; (iv) the canonicalName loop follows at most `depth`
links. -/
theorem c8_cname_chase_bounded :
    (∀ (env : REnv) (s : RState) (req n : String) (d : Nat) (obs : List String),
      ((resolveName env s req n d obs).2).cname.length ≤ s.cname.length + d) ∧
    (∀ (env : REnv) (s r : RState) (req n : String) (obs : List String) (cn : RR),
      lookup env s n = (.ok (none, some cn), r) →
      (resolveName env s req n 0 obs).1 = .error (.tooLong req)) ∧
    (∀ (env : REnv) (s : RState) (orig n : String) (obs : List String) (e : CEntry),
      alGet s.cname n = some e → ¬ e.expiry < env.now →
      canonicalLoop env s orig n 0 obs = (.error (.tooLong orig), s)) ∧
    (∀ (env : REnv) (s : RState) (n : String) (d : Nat) (obs : List String),
      canonicalHops env s n d obs ≤ d) :=
  ⟨fun env s req n d obs => resolveName_cname_length_le env req d s n obs,
   fun env s r req n obs cn hl => resolveName_depth0_pending env s r req n obs cn hl,
   fun env s orig n obs e hget hexp =>
     canonicalLoop_depth0_pending env s orig n obs e hget hexp,
   fun env s n d obs => canonicalHops_le env s d n obs⟩

/-- Environment for the C8 witness: `a.` is a CNAME to `b.`, IPv4 only. -/
def c8env : REnv :=
  { ip4avail := true, ip6avail := false
    base := fun h _ => if h = "a." then some [RR.CNAME "b." 60] else none
    parseIP := fun _ => none, nssFiles := false, etcHosts := fun _ => [],
    now := 0 }

/-- State for the C8 witness: a live cached link `x. → y.`. -/
def c8state : RState :=
  { dnsCache := [], cname := [("x.", ⟨"y.", 60, 60⟩)], ip4 := [], queries := [],
    rnd := [] }

/-- Witness for C8 at concrete inputs: the cache-growth bound at depth 3,
the two exhausted-budget errors, and the hop bound at depth 4. -/
theorem c8_cname_chase_bounded_witness :
    ((resolveName c8env (freshState []) "a." "a." 3 []).2).cname.length ≤
      (freshState []).cname.length + 3 ∧
    (resolveName c8env (freshState []) "a." "a." 0 []).1 =
      .error (.tooLong "a.") ∧
    canonicalLoop c8env c8state "x." "x." 0 [] =
      (.error (.tooLong "x."), c8state) ∧
    canonicalHops c8env c8state "x." 4 [] ≤ 4 :=
  ⟨c8_cname_chase_bounded.1 c8env (freshState []) "a." "a." 3 [],
   c8_cname_chase_bounded.2.1 c8env (freshState [])
     ((lookup c8env (freshState []) "a.").2) "a." "a." [] (RR.CNAME "b." 60) rfl,
   c8_cname_chase_bounded.2.2.1 c8env c8state "x." "x." [] ⟨"y.", 60, 60⟩ rfl
     (by decide),
   c8_cname_chase_bounded.2.2.2 c8env c8state "x." 4 []⟩

/-!
Determinism of the resolver, used for the Resolve idempotence claim.  During
a chase from a fresh resolver state the IPv4-last-seen map is empty, so
`lookup` is `lookup64` (or a single-family path); under the invariant that
every cached response agrees with the BaseResolver, its outcome is the pure
function of the response alone captured by `lookupPure` below.
-/

/-- Cache/BaseResolver agreement: every cached response is what the
BaseResolver answers for that question. -/
def cacheOK (env : REnv) (s : RState) : Prop :=
  ∀ n q r, qGet s.dnsCache (n, q) = some r → env.base n q = some r

/-- Value of a lookup6 step as a function of the BaseResolver response. -/
def pure6 (env : REnv) (n : String) : Except RErr (Option IP × Option RR) :=
  match env.base n QType.A with
  | none => .error .baseFail
  | some resp =>
    match findIP6 resp with
    | (some ip, _) => .ok (some ip, none)
    | (none, some cn) => .ok (none, some cn)
    | (none, none) => .ok (none, none)

/-- Value of a lookup4 step as a function of the BaseResolver response. -/
def pure4 (env : REnv) (n : String) : Except RErr (Option IP × Option RR) :=
  match env.base n QType.A with
  | none => .error .baseFail
  | some resp =>
    match findIP4 resp with
    | (some ip, _) => .ok (some ip, none)
    | (none, some cn) => .ok (none, some cn)
    | (none, none) => .ok (none, none)

/-- Last step of the single-family dispatcher branches: nothing found means
the unresolvable error. -/
def finish1 (p : Except RErr (Option IP × Option RR)) (n : String) :
    Except RErr (Option IP × Option RR) :=
  match p with
  | .error e => .error e
  | .ok (some ip, _) => .ok (some ip, none)
  | .ok (none, some cn) => .ok (none, some cn)
  | .ok (none, none) => .error (.unresolvable n)

/-- Value of lookup64 as a function of the BaseResolver response. -/
def purePair (env : REnv) (n : String) : Except RErr (Option IP × Option RR) :=
  match pure6 env n with
  | .error e => .error e
  | .ok (some ip, _) => .ok (some ip, none)
  | .ok (none, some cn) => .ok (none, some cn)
  | .ok (none, none) => finish1 (pure4 env n) n

/-- Value of lookup, from a state whose IPv4-last-seen map is empty, as a
function of the BaseResolver response. -/
def lookupPure (env : REnv) (n : String) : Except RErr (Option IP × Option RR) :=
  if env.ip6avail && env.ip4avail then purePair env n
  else if env.ip6avail then finish1 (pure6 env n) n
  else if env.ip4avail then finish1 (pure4 env n) n
  else .error .noNetwork

/-- What a lookup step may do to the state: CNAME cache and random stream
untouched, cache/base agreement preserved, cached entries preserved. -/
def stepOK (env : REnv) (host : String) (s s1 : RState) : Prop :=
  s1.cname = s.cname ∧ s1.rnd = s.rnd ∧ cacheOK env s1 ∧
  (∀ k r, qGet s.dnsCache k = some r → qGet s1.dnsCache k = some r)

/-- stepOK is reflexive. -/
theorem stepOK_refl (env : REnv) (host : String) (s : RState)
    (hok : cacheOK env s) :
    stepOK env host s s :=
  ⟨rfl, rfl, hok, fun _ _ h => h⟩

/-- stepOK composes. -/
theorem stepOK_trans (env : REnv) (host : String) (s s1 s2 : RState)
    (h1 : stepOK env host s s1) (h2 : stepOK env host s1 s2) :
    stepOK env host s s2 := by
  obtain ⟨a1, b1, c1, d1⟩ := h1
  obtain ⟨a2, b2, c2, d2⟩ := h2
  exact ⟨a2.trans a1, b2.trans b1, c2, fun k r h => d2 k r (d1 k r h)⟩

/-- The accumulator of findIPAux is always a CNAME record, hence so is the
reported alternate record. -/
theorem findIPAux_cname (extract : RR → Option IP) :
    ∀ (l : List RR) (acc : Option RR),
      (acc = none ∨ ∃ a b, acc = some (RR.CNAME a b)) →
      ∀ cn, (findIPAux extract acc l).2 = some cn → ∃ a b, cn = RR.CNAME a b := by
  intro l
  induction l with
  | nil =>
    intro acc hacc cn h
    rcases hacc with h0 | ⟨a, b, h0⟩
    · rw [findIPAux, h0] at h; exact absurd h (by simp)
    · rw [findIPAux, h0] at h
      simp only [Option.some.injEq] at h
      exact ⟨a, b, h.symm⟩
  | cons rr rest ih =>
    intro acc hacc cn h
    rcases rr with ⟨ip0, t0⟩ | ⟨ip0, t0⟩ | ⟨tg, tl⟩ | _ <;>
      simp only [findIPAux] at h
    · rcases he : extract (RR.A ip0 t0) with _ | ip
      · rw [he] at h; exact ih acc hacc cn h
      · rw [he] at h
        exact absurd (show (none : Option RR) = some cn from h) (by simp)
    · rcases he : extract (RR.AAAA ip0 t0) with _ | ip
      · rw [he] at h; exact ih acc hacc cn h
      · rw [he] at h
        exact absurd (show (none : Option RR) = some cn from h) (by simp)
    · rcases he : extract (RR.CNAME tg tl) with _ | ip
      · rw [he] at h; exact ih (some (RR.CNAME tg tl)) (Or.inr ⟨tg, tl, rfl⟩) cn h
      · rw [he] at h
        exact absurd (show (none : Option RR) = some cn from h) (by simp)
    · rcases he : extract RR.other with _ | ip
      · rw [he] at h; exact ih acc hacc cn h
      · rw [he] at h
        exact absurd (show (none : Option RR) = some cn from h) (by simp)

/-- The alternate record findIP6 reports is a CNAME. -/
theorem findIP6_cname (rrs : List RR) (cn : RR)
    (h : (findIP6 rrs).2 = some cn) : ∃ a b, cn = RR.CNAME a b :=
  findIPAux_cname extractIP6 rrs none (Or.inl rfl) cn h

/-- The alternate record findIP4 reports is a CNAME. -/
theorem findIP4_cname (rrs : List RR) (cn : RR)
    (h : (findIP4 rrs).2 = some cn) : ∃ a b, cn = RR.CNAME a b :=
  findIPAux_cname extractIP4 rrs none (Or.inl rfl) cn h

/-- An IP-carrying pure6 value has no alternate record. -/
theorem pure6_ip_shape (env : REnv) (n : String) (ip : IP) (c : Option RR)
    (h : pure6 env n = .ok (some ip, c)) : c = none := by
  unfold pure6 at h
  split at h
  · exact absurd h (by simp)
  · split at h
    · simp only [Except.ok.injEq, Prod.mk.injEq] at h
      exact h.2.symm
    · simp at h
    · simp at h

/-- An IP-carrying pure4 value has no alternate record. -/
theorem pure4_ip_shape (env : REnv) (n : String) (ip : IP) (c : Option RR)
    (h : pure4 env n = .ok (some ip, c)) : c = none := by
  unfold pure4 at h
  split at h
  · exact absurd h (by simp)
  · split at h
    · simp only [Except.ok.injEq, Prod.mk.injEq] at h
      exact h.2.symm
    · simp at h
    · simp at h

/-- Under cache/base agreement, getResp returns exactly the BaseResolver
answer, and its state change is a stepOK with the IPv4 map untouched. -/
theorem getResp_det (env : REnv) (s : RState) (host : String)
    (hok : cacheOK env s) :
    (getResp env s host QType.A).1 = env.base host QType.A ∧
    stepOK env host s (getResp env s host QType.A).2 ∧
    ((getResp env s host QType.A).2).ip4 = s.ip4 ∧
    (∀ r, env.base host QType.A = some r →
      qGet ((getResp env s host QType.A).2).dnsCache (host, QType.A) = some r) := by
  unfold getResp
  rcases hg : qGet s.dnsCache (host, QType.A) with _ | resp
  · rcases hb : env.base host QType.A with _ | resp
    · refine ⟨rfl, ⟨rfl, rfl, hok, fun k r h => h⟩, rfl, ?_⟩
      intro r hr; exact absurd hr (by simp)
    · refine ⟨rfl, ⟨rfl, rfl, ?_, ?_⟩, rfl, ?_⟩
      · intro n q r h
        simp only [qGet] at h
        by_cases hkq : ((host, QType.A) : String × QType) = (n, q)
        · rw [if_pos hkq] at h
          simp only [Option.some.injEq] at h
          obtain ⟨hn, hq⟩ := Prod.mk.injEq .. ▸ hkq
          rw [← hn, ← hq, hb, h]
        · rw [if_neg hkq] at h
          exact hok n q r h
      · intro k r h
        simp only [qGet]
        by_cases hkq : ((host, QType.A) : String × QType) = k
        · rw [← hkq, hg] at h
          exact absurd h (by simp)
        · rw [if_neg hkq]
          exact h
      · intro r hr
        simp only [Option.some.injEq] at hr
        simp [qGet, hr]
  · have hbase : env.base host QType.A = some resp := hok host QType.A resp hg
    refine ⟨hbase.symm, ⟨rfl, rfl, hok, fun k r h => h⟩, rfl, ?_⟩
    intro r hr
    rw [hbase] at hr
    simp only [Option.some.injEq] at hr
    rw [← hr]
    exact hg

/-- Under cache/base agreement, lookup6 computes pure6 and performs a stepOK
without touching the IPv4 map. -/
theorem lookup6_det (env : REnv) (s : RState) (host : String)
    (hok : cacheOK env s) :
    (lookup6 env s host).1 = pure6 env host ∧
    stepOK env host s (lookup6 env s host).2 ∧
    ((lookup6 env s host).2).ip4 = s.ip4 ∧
    (∀ r, env.base host QType.A = some r →
      qGet ((lookup6 env s host).2).dnsCache (host, QType.A) = some r) := by
  obtain ⟨h1, h2, h3, h4⟩ := getResp_det env s host hok
  unfold lookup6 pure6
  rcases hg : getResp env s host QType.A with ⟨o, s1⟩
  rw [hg] at h1 h2 h3 h4
  rcases o with _ | resp
  · have hb : env.base host QType.A = none := h1.symm
    rw [hb]
    refine ⟨rfl, h2, h3, ?_⟩
    intro r hr
    exact absurd hr (by simp)
  · have hb : env.base host QType.A = some resp := h1.symm
    rw [hb]
    rw [hb] at h4
    rcases hf : findIP6 resp with ⟨i, c⟩
    rcases i with _ | ip
    · rcases c with _ | cn
      · exact ⟨by simp [hf], by simp only [hf]; exact h2, by simp only [hf]; exact h3,
          by simp only [hf]; exact h4⟩
      · exact ⟨by simp [hf], by simp only [hf]; exact h2, by simp only [hf]; exact h3,
          by simp only [hf]; exact h4⟩
    · exact ⟨by simp [hf], by simp only [hf]; exact h2, by simp only [hf]; exact h3,
        by simp only [hf]; exact h4⟩

/-- Under cache/base agreement, lookup4 computes pure4 and performs a stepOK
without touching the IPv4 map. -/
theorem lookup4_det (env : REnv) (s : RState) (host : String)
    (hok : cacheOK env s) :
    (lookup4 env s host).1 = pure4 env host ∧
    stepOK env host s (lookup4 env s host).2 ∧
    ((lookup4 env s host).2).ip4 = s.ip4 ∧
    (∀ r, env.base host QType.A = some r →
      qGet ((lookup4 env s host).2).dnsCache (host, QType.A) = some r) := by
  obtain ⟨h1, h2, h3, h4⟩ := getResp_det env s host hok
  unfold lookup4 pure4
  rcases hg : getResp env s host QType.A with ⟨o, s1⟩
  rw [hg] at h1 h2 h3 h4
  rcases o with _ | resp
  · have hb : env.base host QType.A = none := h1.symm
    rw [hb]
    refine ⟨rfl, h2, h3, ?_⟩
    intro r hr
    exact absurd hr (by simp)
  · have hb : env.base host QType.A = some resp := h1.symm
    rw [hb]
    rw [hb] at h4
    rcases hf : findIP4 resp with ⟨i, c⟩
    rcases i with _ | ip
    · rcases c with _ | cn
      · exact ⟨by simp [hf], by simp only [hf]; exact h2, by simp only [hf]; exact h3,
          by simp only [hf]; exact h4⟩
      · exact ⟨by simp [hf], by simp only [hf]; exact h2, by simp only [hf]; exact h3,
          by simp only [hf]; exact h4⟩
    · exact ⟨by simp [hf], by simp only [hf]; exact h2, by simp only [hf]; exact h3,
        by simp only [hf]; exact h4⟩

/-- With the answered question already cached, lookup6 is a pure read: it
returns pure6 and leaves the state unchanged. -/
theorem lookup6_hit_pure (env : REnv) (t : RState) (host : String)
    (resp : List RR)
    (hb : env.base host QType.A = some resp)
    (hkey : qGet t.dnsCache (host, QType.A) = some resp) :
    lookup6 env t host = (pure6 env host, t) := by
  unfold lookup6 getResp pure6
  rw [hkey, hb]
  rcases hf : findIP6 resp with ⟨i, c⟩
  rcases i with _ | ip
  · rcases c with _ | cn <;> simp [hf]
  · simp [hf]

/-- With the answered question already cached, lookup4 is a pure read: it
returns pure4 and leaves the state unchanged. -/
theorem lookup4_hit_pure (env : REnv) (t : RState) (host : String)
    (resp : List RR)
    (hb : env.base host QType.A = some resp)
    (hkey : qGet t.dnsCache (host, QType.A) = some resp) :
    lookup4 env t host = (pure4 env host, t) := by
  unfold lookup4 getResp pure4
  rw [hkey, hb]
  rcases hf : findIP4 resp with ⟨i, c⟩
  rcases i with _ | ip
  · rcases c with _ | cn <;> simp [hf]
  · simp [hf]

/-- stepOK ignores the IPv4 map. -/
theorem stepOK_setIp4 (env : REnv) (host : String) (s s2 : RState)
    (x : List (String × Bool)) (h : stepOK env host s s2) :
    stepOK env host s { s2 with ip4 := x } := by
  obtain ⟨a, b, c, d⟩ := h
  exact ⟨a, b, c, d⟩

/-- Under cache/base agreement, lookup64 computes purePair; it performs a
stepOK; the IPv4 map is written (with true for the host) exactly when IPv6
found nothing and IPv4 found an address; afterwards the question is
cached whenever the BaseResolver answers it. -/
theorem lookup64_det (env : REnv) (s : RState) (host : String)
    (hok : cacheOK env s) :
    (lookup64 env s host).1 = purePair env host ∧
    stepOK env host s (lookup64 env s host).2 ∧
    (((lookup64 env s host).2).ip4 = s.ip4 ∨
      (((lookup64 env s host).2).ip4 = (host, true) :: s.ip4 ∧
        pure6 env host = .ok (none, none) ∧
        ∃ ip, pure4 env host = .ok (some ip, none) ∧
          purePair env host = .ok (some ip, none))) ∧
    (∀ cn, purePair env host = .ok (none, cn) →
      ((lookup64 env s host).2).ip4 = s.ip4) ∧
    (∀ ip, purePair env host = .ok (some ip, none) →
      ((lookup64 env s host).2).ip4 = s.ip4 →
      pure6 env host = .ok (some ip, none)) ∧
    (pure6 env host = .ok (none, none) →
      (∃ ip c, pure4 env host = .ok (some ip, c)) →
      ((lookup64 env s host).2).ip4 = (host, true) :: s.ip4) ∧
    (∀ r, env.base host QType.A = some r →
      qGet ((lookup64 env s host).2).dnsCache (host, QType.A) = some r) := by
  obtain ⟨g1, g2, g3, g4⟩ := lookup6_det env s host hok
  unfold lookup64
  rcases hl6 : lookup6 env s host with ⟨r6, s1⟩
  rw [hl6] at g1 g2 g3 g4
  have g3' : s1.ip4 = s.ip4 := g3
  have hr6 : r6 = pure6 env host := g1
  subst hr6
  rcases hp6 : pure6 env host with e | ⟨i6, c6⟩
  · refine ⟨by simp [purePair, hp6], g2, Or.inl g3', ?_, ?_, ?_, g4⟩
    · intro cn hcn; simp [purePair, hp6] at hcn
    · intro ip hip _; simp [purePair, hp6] at hip
    · intro h6' _; exact absurd h6' (by simp)
  · rcases i6 with _ | ip6v
    · rcases c6 with _ | cn6
      · -- pure6 found nothing: fall through to lookup4
        have hok1 : cacheOK env s1 := g2.2.2.1
        obtain ⟨f1, f2, f3, f4⟩ := lookup4_det env s1 host hok1
        rcases hl4 : lookup4 env s1 host with ⟨r4, s2⟩
        rw [hl4] at f1 f2 f3 f4
        have f3' : s2.ip4 = s1.ip4 := f3
        have hr4 : r4 = pure4 env host := f1
        subst hr4
        dsimp only
        rw [hl4]
        have hkey2 : ∀ r, env.base host QType.A = some r →
            qGet s2.dnsCache (host, QType.A) = some r :=
          fun r hr => f2.2.2.2 (host, QType.A) r (g4 r hr)
        rcases hp4 : pure4 env host with e | ⟨i4, c4⟩
        · refine ⟨by simp [purePair, finish1, hp6, hp4],
            stepOK_trans env host s s1 s2 g2 f2,
            Or.inl (f3'.trans g3'), ?_, ?_, ?_, hkey2⟩
          · intro cn hcn; simp [purePair, finish1, hp6, hp4] at hcn
          · intro ip hip _; simp [purePair, finish1, hp6, hp4] at hip
          · intro _ hex
            obtain ⟨ip, c, hic⟩ := hex
            exact absurd hic (by simp)
        · rcases i4 with _ | ip4v
          · rcases c4 with _ | cn4
            · refine ⟨by simp [purePair, finish1, hp6, hp4],
                stepOK_trans env host s s1 s2 g2 f2,
                Or.inl (f3'.trans g3'), ?_, ?_, ?_, hkey2⟩
              · intro cn hcn; simp [purePair, finish1, hp6, hp4] at hcn
              · intro ip hip _; simp [purePair, finish1, hp6, hp4] at hip
              · intro _ hex
                obtain ⟨ip, c, hic⟩ := hex
                exact absurd hic (by simp)
            · refine ⟨by simp [purePair, finish1, hp6, hp4],
                stepOK_trans env host s s1 s2 g2 f2,
                Or.inl (f3'.trans g3'), ?_, ?_, ?_, hkey2⟩
              · intro cn hcn; exact f3'.trans g3'
              · intro ip hip _; simp [purePair, finish1, hp6, hp4] at hip
              · intro _ hex
                obtain ⟨ip, c, hic⟩ := hex
                exact absurd hic (by simp)
          · have hc4 : c4 = none := pure4_ip_shape env host ip4v c4 hp4
            subst hc4
            refine ⟨by simp [purePair, finish1, hp6, hp4],
              stepOK_setIp4 env host s s2 _ (stepOK_trans env host s s1 s2 g2 f2),
              Or.inr ⟨by simp [f3', g3'], rfl, ip4v, rfl,
                by simp [purePair, finish1, hp6, hp4]⟩, ?_, ?_, ?_, hkey2⟩
            · intro cn hcn; simp [purePair, finish1, hp6, hp4] at hcn
            · intro ip hip hip4
              have h1 : (host, true) :: s2.ip4 = s.ip4 := hip4
              rw [f3', g3'] at h1
              have h2 := congrArg List.length h1
              simp at h2
            · intro _ _; simp [f3', g3']
      · refine ⟨by simp [purePair, hp6], g2, Or.inl g3', ?_, ?_, ?_, g4⟩
        · intro cn hcn; exact g3'
        · intro ip hip _; simp [purePair, hp6] at hip
        · intro h6' _; exact absurd h6' (by simp)
    · have hc6 : c6 = none := pure6_ip_shape env host ip6v c6 hp6
      subst hc6
      refine ⟨by simp [purePair, hp6], g2, Or.inl g3', ?_, ?_, ?_, g4⟩
      · intro cn hcn; simp [purePair, hp6] at hcn
      · intro ip hip _
        have hij : ip = ip6v := by simp [purePair, hp6] at hip; exact hip.symm
        rw [hij]
      · intro h6' _; exact absurd h6' (by simp)

/-- An IP-carrying finish1 value has no alternate record. -/
theorem finish1_ip_shape (p : Except RErr (Option IP × Option RR)) (n : String)
    (ip : IP) (c : Option RR) (h : finish1 p n = .ok (some ip, c)) : c = none := by
  unfold finish1 at h
  split at h
  · exact absurd h (by simp)
  · simp only [Except.ok.injEq, Prod.mk.injEq] at h
    exact h.2.symm
  · simp at h
  · exact absurd h (by simp)

/-- An IP-carrying purePair value has no alternate record. -/
theorem purePair_ip_shape (env : REnv) (n : String) (ip : IP) (c : Option RR)
    (h : purePair env n = .ok (some ip, c)) : c = none := by
  unfold purePair at h
  split at h
  · exact absurd h (by simp)
  · simp only [Except.ok.injEq, Prod.mk.injEq] at h
    exact h.2.symm
  · simp at h
  · exact finish1_ip_shape _ n ip c h

/-- An IP-carrying lookupPure value has no alternate record. -/
theorem lookupPure_ip_shape (env : REnv) (n : String) (ip : IP) (c : Option RR)
    (h : lookupPure env n = .ok (some ip, c)) : c = none := by
  unfold lookupPure at h
  by_cases hba : (env.ip6avail && env.ip4avail) = true
  · rw [if_pos hba] at h
    exact purePair_ip_shape env n ip c h
  · rw [if_neg hba] at h
    by_cases h6 : env.ip6avail = true
    · rw [if_pos h6] at h
      exact finish1_ip_shape _ n ip c h
    · rw [if_neg h6] at h
      by_cases h4 : env.ip4avail = true
      · rw [if_pos h4] at h
        exact finish1_ip_shape _ n ip c h
      · rw [if_neg h4] at h
        exact absurd h (by simp)

/-- A successful lookupPure means the BaseResolver answered the question. -/
theorem lookupPure_ok_base (env : REnv) (n : String) (r : Option IP × Option RR)
    (h : lookupPure env n = .ok r) : ∃ resp, env.base n QType.A = some resp := by
  rcases hb : env.base n QType.A with _ | resp
  · exfalso
    have h6 : pure6 env n = .error .baseFail := by simp [pure6, hb]
    have h4 : pure4 env n = .error .baseFail := by simp [pure4, hb]
    unfold lookupPure at h
    by_cases hba : (env.ip6avail && env.ip4avail) = true
    · rw [if_pos hba] at h
      simp [purePair, h6] at h
    · rw [if_neg hba] at h
      by_cases h6a : env.ip6avail = true
      · rw [if_pos h6a] at h
        simp [finish1, h6] at h
      · rw [if_neg h6a] at h
        by_cases h4a : env.ip4avail = true
        · rw [if_pos h4a] at h
          simp [finish1, h4] at h
        · rw [if_neg h4a] at h
          simp at h
  · exact ⟨resp, rfl⟩

/-- Under cache/base agreement, from a state with an empty IPv4-last-seen
map, lookup computes lookupPure; it performs a stepOK; the IPv4 map is
written exactly in the both-families IPv6-empty IPv4-hit case; the question
ends up cached whenever some family is usable and the BaseResolver
answers. -/
theorem lookup_det (env : REnv) (s : RState) (host : String)
    (hip : s.ip4 = []) (hok : cacheOK env s) :
    (lookup env s host).1 = lookupPure env host ∧
    stepOK env host s (lookup env s host).2 ∧
    (((lookup env s host).2).ip4 = [] ∨
      (((lookup env s host).2).ip4 = [(host, true)] ∧
        pure6 env host = .ok (none, none) ∧
        ∃ ip, pure4 env host = .ok (some ip, none) ∧
          lookupPure env host = .ok (some ip, none))) ∧
    (∀ cn, lookupPure env host = .ok (none, cn) →
      ((lookup env s host).2).ip4 = []) ∧
    (∀ ip, lookupPure env host = .ok (some ip, none) →
      ((lookup env s host).2).ip4 = [] →
      (env.ip6avail && env.ip4avail) = false ∨
        pure6 env host = .ok (some ip, none)) ∧
    ((env.ip6avail && env.ip4avail) = true →
      pure6 env host = .ok (none, none) →
      (∃ ip c, pure4 env host = .ok (some ip, c)) →
      ((lookup env s host).2).ip4 = [(host, true)]) ∧
    (∀ r, env.base host QType.A = some r →
      (env.ip6avail || env.ip4avail) = true →
      qGet ((lookup env s host).2).dnsCache (host, QType.A) = some r) := by
  unfold lookup lookupPure
  by_cases hba : (env.ip6avail && env.ip4avail) = true
  · rw [if_pos hba, if_pos hba]
    rw [hip]
    simp only [alGet, Option.getD_none, Bool.false_eq_true, if_false]
    obtain ⟨k1, k2, k3, k4, k5, k6, k7⟩ := lookup64_det env s host hok
    rw [hip] at k3 k4 k6
    refine ⟨k1, k2, k3, k4, ?_, fun _ => k6, fun r hr _ => k7 r hr⟩
    intro ip hpp hip4
    exact Or.inr (k5 ip hpp (hip4.trans hip.symm))
  · rw [if_neg hba, if_neg hba]
    have hbaf : (env.ip6avail && env.ip4avail) = false := by
      cases hx : (env.ip6avail && env.ip4avail) with
      | false => rfl
      | true => exact absurd hx hba
    by_cases h6 : env.ip6avail = true
    · rw [if_pos h6, if_pos h6]
      obtain ⟨g1, g2, g3, g4⟩ := lookup6_det env s host hok
      rcases hl6 : lookup6 env s host with ⟨r6, s1⟩
      rw [hl6] at g1 g2 g3 g4
      have g3' : s1.ip4 = [] := by rw [← hip]; exact g3
      have hr6 : r6 = pure6 env host := g1
      subst hr6
      rcases hp6 : pure6 env host with e | ⟨i6, c6⟩
      · exact ⟨by simp [finish1, hp6], g2, Or.inl g3', fun _ _ => g3',
          fun ip hip' _ => Or.inl hbaf,
          fun hc => absurd hc hba, fun r hr _ => g4 r hr⟩
      · rcases i6 with _ | ip6v
        · rcases c6 with _ | cn6
          · exact ⟨by simp [finish1, hp6], g2, Or.inl g3', fun _ _ => g3',
              fun ip hip' _ => Or.inl hbaf,
              fun hc => absurd hc hba, fun r hr _ => g4 r hr⟩
          · exact ⟨by simp [finish1, hp6], g2, Or.inl g3', fun _ _ => g3',
              fun ip hip' _ => Or.inl hbaf,
              fun hc => absurd hc hba, fun r hr _ => g4 r hr⟩
        · exact ⟨by simp [finish1, hp6], g2, Or.inl g3', fun _ _ => g3',
            fun ip hip' _ => Or.inl hbaf,
            fun hc => absurd hc hba, fun r hr _ => g4 r hr⟩
    · rw [if_neg h6, if_neg h6]
      by_cases h4 : env.ip4avail = true
      · rw [if_pos h4, if_pos h4]
        obtain ⟨g1, g2, g3, g4⟩ := lookup4_det env s host hok
        rcases hl4 : lookup4 env s host with ⟨r4, s1⟩
        rw [hl4] at g1 g2 g3 g4
        have g3' : s1.ip4 = [] := by rw [← hip]; exact g3
        have hr4 : r4 = pure4 env host := g1
        subst hr4
        rcases hp4 : pure4 env host with e | ⟨i4, c4⟩
        · exact ⟨by simp [finish1, hp4], g2, Or.inl g3', fun _ _ => g3',
            fun ip hip' _ => Or.inl hbaf,
            fun hc => absurd hc hba, fun r hr _ => g4 r hr⟩
        · rcases i4 with _ | ip4v
          · rcases c4 with _ | cn4
            · exact ⟨by simp [finish1, hp4], g2, Or.inl g3', fun _ _ => g3',
                fun ip hip' _ => Or.inl hbaf,
                fun hc => absurd hc hba, fun r hr _ => g4 r hr⟩
            · exact ⟨by simp [finish1, hp4], g2, Or.inl g3', fun _ _ => g3',
                fun ip hip' _ => Or.inl hbaf,
                fun hc => absurd hc hba, fun r hr _ => g4 r hr⟩
          · exact ⟨by simp [finish1, hp4], g2, Or.inl g3', fun _ _ => g3',
              fun ip hip' _ => Or.inl hbaf,
              fun hc => absurd hc hba, fun r hr _ => g4 r hr⟩
      · rw [if_neg h4, if_neg h4]
        refine ⟨rfl, stepOK_refl env host s hok, Or.inl hip, fun cn hcn => ?_,
          fun ip hip' _ => ?_, fun hc => absurd hc hba, fun r hr havail => ?_⟩
        · exact absurd hcn (by simp)
        · exact absurd hip' (by simp)
        · exfalso
          simp only [Bool.or_eq_true] at havail
          rcases havail with hx | hx
          · exact h6 hx
          · exact h4 hx

/-- A successful lookup from an empty-IPv4-map state is stable: repeating it
on the resulting state returns the same value and leaves the state
unchanged (the response is now cached and the family-preference flag leads
to the same record extraction). -/
theorem lookup_stab (env : REnv) (s : RState) (host : String)
    (r : Option IP × Option RR) (t : RState)
    (hip : s.ip4 = []) (hok : cacheOK env s)
    (hl : lookup env s host = (.ok r, t)) :
    lookup env t host = (.ok r, t) := by
  obtain ⟨d1, d2, d3, d4, d5, d6, d7⟩ := lookup_det env s host hip hok
  rw [hl] at d1 d2 d3 d4 d5 d6 d7
  have hpv : lookupPure env host = .ok r := d1.symm
  obtain ⟨resp, hb⟩ := lookupPure_ok_base env host r hpv
  have havail : (env.ip6avail || env.ip4avail) = true := by
    by_cases h6x : env.ip6avail = true
    · simp [h6x]
    · by_cases h4x : env.ip4avail = true
      · simp [h4x]
      · exfalso
        unfold lookupPure at hpv
        have hbaf : ¬ (env.ip6avail && env.ip4avail) = true := by
          intro hx
          simp only [Bool.and_eq_true] at hx
          exact h6x hx.1
        rw [if_neg hbaf, if_neg h6x, if_neg h4x] at hpv
        exact absurd hpv (by simp)
  have hkeyT : qGet t.dnsCache (host, QType.A) = some resp := d7 resp hb havail
  unfold lookup
  by_cases hba : (env.ip6avail && env.ip4avail) = true
  · rw [if_pos hba]
    have hpp : purePair env host = .ok r := by
      unfold lookupPure at hpv
      rw [if_pos hba] at hpv
      exact hpv
    rcases d3 with hip4t | ⟨hip4t, hp6nn, ip0, hp4ip, hppip⟩
    · rw [hip4t]
      simp only [alGet, Option.getD_none, Bool.false_eq_true, if_false]
      unfold lookup64
      rw [lookup6_hit_pure env t host resp hb hkeyT]
      rcases hp6 : pure6 env host with e | ⟨i6, c6⟩
      · exfalso; simp [purePair, hp6] at hpp
      · rcases i6 with _ | ip6v
        · rcases c6 with _ | cn6
          · dsimp only
            rw [lookup4_hit_pure env t host resp hb hkeyT]
            rcases hp4 : pure4 env host with e | ⟨i4, c4⟩
            · exfalso; simp [purePair, finish1, hp6, hp4] at hpp
            · rcases i4 with _ | ip4v
              · rcases c4 with _ | cn4
                · exfalso; simp [purePair, finish1, hp6, hp4] at hpp
                · have hr : r = (none, some cn4) := by
                    simp [purePair, finish1, hp6, hp4] at hpp
                    exact hpp.symm
                  rw [hr]
              · exfalso
                have hw := d6 hba hp6 ⟨ip4v, c4, hp4⟩
                rw [hip4t] at hw
                exact absurd hw (by simp)
          · have hr : r = (none, some cn6) := by
              simp [purePair, hp6] at hpp
              exact hpp.symm
            rw [hr]
        · have hc6 : c6 = none := pure6_ip_shape env host ip6v c6 hp6
          subst hc6
          have hr : r = (some ip6v, none) := by
            simp [purePair, hp6] at hpp
            exact hpp.symm
          rw [hr]
    · rw [hip4t]
      simp only [alGet, if_pos rfl, Option.getD_some, if_true]
      unfold lookup46
      rw [lookup4_hit_pure env t host resp hb hkeyT]
      rw [hp4ip]
      have hr : r = (some ip0, none) := by
        rw [hpv] at hppip
        simp only [Except.ok.injEq] at hppip
        exact hppip
      rw [hr]
  · rw [if_neg hba]
    by_cases h6x : env.ip6avail = true
    · rw [if_pos h6x]
      rw [lookup6_hit_pure env t host resp hb hkeyT]
      have hf : finish1 (pure6 env host) host = .ok r := by
        unfold lookupPure at hpv
        rw [if_neg hba, if_pos h6x] at hpv
        exact hpv
      rcases hp6 : pure6 env host with e | ⟨i6, c6⟩
      · exfalso; rw [hp6] at hf; simp [finish1] at hf
      · rcases i6 with _ | ip6v
        · rcases c6 with _ | cn6
          · exfalso; rw [hp6] at hf; simp [finish1] at hf
          · have hr : r = (none, some cn6) := by
              rw [hp6] at hf
              simp [finish1] at hf
              exact hf.symm
            rw [hr]
        · have hc6 : c6 = none := pure6_ip_shape env host ip6v c6 hp6
          subst hc6
          have hr : r = (some ip6v, none) := by
            rw [hp6] at hf
            simp [finish1] at hf
            exact hf.symm
          rw [hr]
    · rw [if_neg h6x]
      by_cases h4x : env.ip4avail = true
      · rw [if_pos h4x]
        rw [lookup4_hit_pure env t host resp hb hkeyT]
        have hf : finish1 (pure4 env host) host = .ok r := by
          unfold lookupPure at hpv
          rw [if_neg hba, if_neg h6x, if_pos h4x] at hpv
          exact hpv
        rcases hp4 : pure4 env host with e | ⟨i4, c4⟩
        · exfalso; rw [hp4] at hf; simp [finish1] at hf
        · rcases i4 with _ | ip4v
          · rcases c4 with _ | cn4
            · exfalso; rw [hp4] at hf; simp [finish1] at hf
            · have hr : r = (none, some cn4) := by
                rw [hp4] at hf
                simp [finish1] at hf
                exact hf.symm
              rw [hr]
          · have hc4 : c4 = none := pure4_ip_shape env host ip4v c4 hp4
            subst hc4
            have hr : r = (some ip4v, none) := by
              rw [hp4] at hf
              simp [finish1] at hf
              exact hf.symm
            rw [hr]
      · exfalso
        simp only [Bool.or_eq_true] at havail
        rcases havail with hx | hx
        · exact h6x hx
        · exact h4x hx

/-- An association-list hit is a member. -/
theorem alGet_mem {β : Type} :
    ∀ (l : List (String × β)) (k : String) (v : β),
      alGet l k = some v → (k, v) ∈ l := by
  intro l
  induction l with
  | nil => intro k v h; exact absurd h (by simp [alGet])
  | cons p rest ih =>
    intro k v h
    rcases p with ⟨a, b⟩
    rw [alGet] at h
    by_cases hak : a = k
    · rw [if_pos hak] at h
      simp only [Option.some.injEq] at h
      subst hak
      rw [h]
      exact List.mem_cons_self _ _
    · rw [if_neg hak] at h
      exact List.mem_cons_of_mem _ (ih k v h)

/-- Association-list reads over an append: the left list shadows. -/
theorem alGet_append {β : Type} :
    ∀ (l1 l2 : List (String × β)) (k : String),
      alGet (l1 ++ l2) k =
        (match alGet l1 k with
         | some v => some v
         | none => alGet l2 k) := by
  intro l1
  induction l1 with
  | nil => intro l2 k; simp [alGet]
  | cons p rest ih =>
    intro l2 k
    rcases p with ⟨a, b⟩
    by_cases hak : a = k
    · simp [alGet, if_pos hak]
    · simp only [List.cons_append, alGet, if_neg hak]
      exact ih l2 k

/-- A chase that reaches a name whose pure lookup is a CNAME into the
observed set cannot succeed: it dies on the depth budget or the cycle
check. -/
theorem chase_blocked (env : REnv) (req : String) (s' : RState)
    (target : String) (d' : Nat) (obs' : List String) (nmv : String) (tt : Nat)
    (hip' : s'.ip4 = []) (hok' : cacheOK env s')
    (hcl : lookupPure env target = .ok (none, some (RR.CNAME nmv tt)))
    (hmem : nmv ∈ obs') :
    ∀ (X : IP) (t : RState), resolveName env s' req target d' obs' ≠ (.ok X, t) := by
  intro X t hrun
  obtain ⟨L1, L2, L3, L4, L5, L6, L7⟩ := lookup_det env s' target hip' hok'
  rcases hl2 : lookup env s' target with ⟨rv2, s2⟩
  rw [hl2] at L1
  have hrv2 : rv2 = lookupPure env target := L1
  subst hrv2
  rw [resolveName.eq_def, hl2, hcl] at hrun
  cases d' with
  | zero => simp at hrun
  | succ dd => simp [hmem] at hrun

/-- Terminal step of the chase: when the lookup of a name yields an IP from
a state whose CNAME entries all denote CNAME-valued lookups, that name has
no CNAME-cache entry, so the canonicalName loop stops at it, and repeating
the lookup is stable. -/
theorem chase_terminal (env : REnv) (nm : String) (d : Nat) (s t : RState)
    (n : String) (X : IP) (c : Option RR) (obs2 : List String)
    (hip : s.ip4 = []) (hok : cacheOK env s)
    (h3w : ∀ x e, alGet s.cname x = some e →
      ∃ tt, lookupPure env x = .ok (none, some (RR.CNAME e.name tt)))
    (hl : lookup env s n = (.ok (some X, c), t)) :
    canonicalLoop env t nm n d obs2 = (.ok n, t) ∧
    lookup env t n = (.ok (some X, none), t) ∧
    t.cname = s.cname := by
  obtain ⟨L1, L2, L3, L4, L5, L6, L7⟩ := lookup_det env s n hip hok
  rw [hl] at L1 L2
  have hpv : lookupPure env n = .ok (some X, c) := L1.symm
  have hcnone : c = none := lookupPure_ip_shape env n X c hpv
  subst hcnone
  have hct : t.cname = s.cname := L2.1
  have hnone : alGet s.cname n = none := by
    rcases hgn : alGet s.cname n with _ | e
    · rfl
    · exfalso
      obtain ⟨tt, hcl⟩ := h3w n e hgn
      rw [hpv] at hcl
      exact absurd hcl (by simp)
  refine ⟨?_, ?_, hct⟩
  · rw [canonicalLoop.eq_def, hct, hnone]
  · exact lookup_stab env s n (some X, none) t hip hok hl

/-- Simulation of a successful resolveName chase by the canonicalName loop
on the final state: the chase caches exactly the CNAME links it followed,
so canonicalName re-traverses them to the terminal name, whose repeated
lookup returns the same address and leaves the state unchanged. -/
theorem chase_sim (env : REnv) (req nm : String) :
    ∀ (d : Nat) (s : RState) (n : String) (obs obs2 : List String)
      (X : IP) (t : RState),
      s.ip4 = [] →
      cacheOK env s →
      (∀ x e, alGet s.cname x = some e →
        (∃ tt, lookupPure env x = .ok (none, some (RR.CNAME e.name tt))) ∧
          e.name ∈ obs ∧ env.now ≤ e.expiry) →
      (∀ y, y ∈ obs2 → y ∈ obs ∨ (∃ e, alGet s.cname y = some e) ∨ y = n) →
      resolveName env s req n d obs = (.ok X, t) →
      ∃ m, canonicalLoop env t nm n d obs2 = (.ok m, t) ∧
        lookup env t m = (.ok (some X, none), t) ∧
        (∃ added, t.cname = added ++ s.cname ∧
          ∀ x e, (x, e) ∈ added →
            (∃ tt, lookupPure env x = .ok (none, some (RR.CNAME e.name tt))) ∧
              env.now ≤ e.expiry) := by
  intro d
  induction d with
  | zero =>
    intro s n obs obs2 X t hip hok h3 h4 hrun
    obtain ⟨L1, L2, L3, L4, L5, L6, L7⟩ := lookup_det env s n hip hok
    rcases hl : lookup env s n with ⟨rv, s1⟩
    rw [hl] at L1
    have hrv : rv = lookupPure env n := L1
    subst hrv
    rw [resolveName.eq_def, hl] at hrun
    rcases hp : lookupPure env n with e | ⟨i, c⟩
    · rw [hp] at hrun; simp at hrun
    · rcases i with _ | ip
      · rcases c with _ | cn
        · rw [hp] at hrun; simp at hrun
        · rw [hp] at hrun; simp at hrun
      · rw [hp] at hrun
        have hpair : ((Except.ok ip : Except RErr IP), s1) = (Except.ok X, t) := hrun
        have hipX : ip = X := by
          have h1 := congrArg Prod.fst hpair
          simp only [Except.ok.injEq] at h1
          exact h1
        have hts : s1 = t := congrArg Prod.snd hpair
        have hl2 : lookup env s n = (.ok (some X, c), t) := by
          rw [hl, hp, hipX, hts]
        obtain ⟨hloop, hterm, hct⟩ := chase_terminal env nm 0 s t n X c obs2 hip hok
          (fun x e hg => (h3 x e hg).1) hl2
        exact ⟨n, hloop, hterm, [], by simp [hct], by simp⟩
  | succ d' ih =>
    intro s n obs obs2 X t hip hok h3 h4 hrun
    obtain ⟨L1, L2, L3, L4, L5, L6, L7⟩ := lookup_det env s n hip hok
    rcases hl : lookup env s n with ⟨rv, s1⟩
    rw [hl] at L1 L2 L4
    have hrv : rv = lookupPure env n := L1
    subst hrv
    rw [resolveName.eq_def, hl] at hrun
    rcases hp : lookupPure env n with e | ⟨i, c⟩
    · rw [hp] at hrun; simp at hrun
    · rcases i with _ | ip
      · rcases c with _ | cn
        · rw [hp] at hrun; simp at hrun
        · -- CNAME pending: either a cycle/blocked contradiction or a hop
          rw [hp] at hrun
          rcases cn with ⟨ipz, tz⟩ | ⟨ipz, tz⟩ | ⟨a0, b0⟩ | _
          · simp at hrun
          · simp at hrun
          · by_cases hobs : a0 ∈ obs
            · simp [hobs] at hrun
            · simp only [if_neg hobs] at hrun
              simp only [calculateExpiry] at hrun
              -- hrun is now the recursive chase from the extended state
              have hs1c : s1.cname = s.cname := L2.1
              have hip1 : s1.ip4 = [] := L4 (some (RR.CNAME a0 b0)) hp
              have hok1 : cacheOK env s1 := L2.2.2.1
              have hip' : ({ s1 with
                  cname := (n, ⟨a0, b0, env.now + b0⟩) :: s1.cname } : RState).ip4 = [] := hip1
              have hok' : cacheOK env { s1 with
                  cname := (n, ⟨a0, b0, env.now + b0⟩) :: s1.cname } := hok1
              have h3' : ∀ x e, alGet ({ s1 with
                  cname := (n, ⟨a0, b0, env.now + b0⟩) :: s1.cname } : RState).cname x = some e →
                  (∃ tt, lookupPure env x = .ok (none, some (RR.CNAME e.name tt))) ∧
                    e.name ∈ (a0 :: obs) ∧ env.now ≤ e.expiry := by
                intro x e hgx
                have hgx2 : alGet ((n, (⟨a0, b0, env.now + b0⟩ : CEntry)) :: s1.cname) x = some e := hgx
                rw [alGet] at hgx2
                by_cases hnx : n = x
                · rw [if_pos hnx] at hgx2
                  simp only [Option.some.injEq] at hgx2
                  subst hgx2
                  refine ⟨⟨b0, ?_⟩, List.mem_cons_self _ _, Nat.le_add_right _ _⟩
                  rw [← hnx]
                  exact hp
                · rw [if_neg hnx] at hgx2
                  rw [hs1c] at hgx2
                  obtain ⟨hcl, hmem, hexp⟩ := h3 x e hgx2
                  exact ⟨hcl, List.mem_cons_of_mem _ hmem, hexp⟩
              have hentry : ∀ y, (∃ e, alGet s.cname y = some e) ∨ y = n →
                  ∃ e, alGet ((n, (⟨a0, b0, env.now + b0⟩ : CEntry)) :: s1.cname) y = some e := by
                intro y hy
                rw [alGet]
                by_cases hny : n = y
                · rw [if_pos hny]; exact ⟨_, rfl⟩
                · rw [if_neg hny]
                  rcases hy with ⟨e, hge⟩ | hyn
                  · rw [hs1c]; exact ⟨e, hge⟩
                  · exact absurd hyn.symm hny
              have h4' : ∀ y, y ∈ (a0 :: obs2) →
                  y ∈ (a0 :: obs) ∨
                  (∃ e, alGet ({ s1 with
                    cname := (n, ⟨a0, b0, env.now + b0⟩) :: s1.cname } : RState).cname y = some e) ∨
                  y = a0 := by
                intro y hy
                rcases List.mem_cons.mp hy with hya | hyo
                · exact Or.inr (Or.inr hya)
                · rcases h4 y hyo with hyobs | hrest
                  · exact Or.inl (List.mem_cons_of_mem _ hyobs)
                  · exact Or.inr (Or.inl (hentry y hrest))
              by_cases htobs2 : a0 ∈ obs2
              · -- the hop target is already observed by the loop: the chase
                -- from it cannot have succeeded
                exfalso
                have hblocked : ∃ e, alGet ((n, (⟨a0, b0, env.now + b0⟩ : CEntry)) :: s1.cname) a0 = some e := by
                  rcases h4 a0 htobs2 with hyobs | hrest
                  · exact absurd hyobs hobs
                  · exact hentry a0 hrest
                obtain ⟨e', hge'⟩ := hblocked
                obtain ⟨⟨tt', hcl'⟩, hmem', _⟩ := h3' a0 e' hge'
                exact chase_blocked env req _ a0 d' (a0 :: obs) e'.name tt'
                  hip' hok' hcl' hmem' X t hrun
              · obtain ⟨m, hloop, hterm, added', hext', hP'⟩ :=
                  ih _ a0 (a0 :: obs) (a0 :: obs2) X t hip' hok' h3' h4' hrun
                refine ⟨m, ?_, hterm, added' ++ [(n, ⟨a0, b0, env.now + b0⟩)], ?_, ?_⟩
                · -- one loop step from n reaches a0, then the tail simulation
                  have hget_t : ∃ e2, alGet t.cname n = some e2 ∧
                      e2.name = a0 ∧ env.now ≤ e2.expiry := by
                    rw [hext', alGet_append]
                    rcases hga : alGet added' n with _ | e2
                    · refine ⟨⟨a0, b0, env.now + b0⟩, ?_, rfl, Nat.le_add_right _ _⟩
                      simp [alGet]
                    · obtain ⟨⟨tt2, hcl2⟩, hexp2⟩ := hP' n e2 (alGet_mem added' n e2 hga)
                      rw [hp] at hcl2
                      simp only [Except.ok.injEq, Prod.mk.injEq, Option.some.injEq,
                        RR.CNAME.injEq] at hcl2
                      exact ⟨e2, rfl, hcl2.2.1.symm, hexp2⟩
                  obtain ⟨e2, hge2, hname2, hexp2⟩ := hget_t
                  rw [canonicalLoop.eq_def, hge2]
                  simp only [hname2]
                  rw [if_neg (Nat.not_lt.mpr hexp2)]
                  simp only [if_neg htobs2]
                  exact hloop
                · rw [hext']
                  have : ({ s1 with
                      cname := (n, ⟨a0, b0, env.now + b0⟩) :: s1.cname } : RState).cname
                      = [(n, (⟨a0, b0, env.now + b0⟩ : CEntry))] ++ s.cname := by
                    simp [hs1c]
                  rw [this, ← List.append_assoc]
                · intro x e hmem
                  rcases List.mem_append.mp hmem with hm1 | hm2
                  · exact hP' x e hm1
                  · simp only [List.mem_singleton, Prod.mk.injEq] at hm2
                    obtain ⟨hx, he⟩ := hm2
                    subst hx
                    subst he
                    exact ⟨⟨b0, hp⟩, Nat.le_add_right _ _⟩
          · simp at hrun
      · -- terminal: the lookup produced an address
        rw [hp] at hrun
        have hpair : ((Except.ok ip : Except RErr IP), s1) = (Except.ok X, t) := hrun
        have hipX : ip = X := by
          have h1 := congrArg Prod.fst hpair
          simp only [Except.ok.injEq] at h1
          exact h1
        have hts : s1 = t := congrArg Prod.snd hpair
        have hl2 : lookup env s n = (.ok (some X, c), t) := by
          rw [hl, hp, hipX, hts]
        obtain ⟨hloop, hterm, hct⟩ := chase_terminal env nm (d' + 1) s t n X c obs2
          hip hok (fun x e hg => (h3 x e hg).1) hl2
        exact ⟨n, hloop, hterm, [], by simp [hct], by simp⟩

/-- Counterexample environment for the literal reading of C6: no IP literals,
the local hosts source active with two addresses for every host, no network
families needed (the DNS path is never reached). -/
def c6cxEnv : REnv :=
  { ip4avail := true, ip6avail := false, base := fun _ _ => none,
    parseIP := fun _ => none, nssFiles := true,
    etcHosts := fun _ => [⟨false, 1⟩, ⟨false, 2⟩], now := 0 }

/-- C6 (counterexample to the unrestricted statement).  A host served by the
local hosts source with several addresses has one picked at random on every
call (resolver.go resolveLocal), consuming the random stream; two consecutive
Resolve calls can return different addresses, so idempotence fails on the
local-hosts path. -/
theorem c6_resolve_counterexample :
    (Resolve c6cxEnv (freshState [0, 1]) "m" 5).1 = .ok ⟨false, 1⟩ ∧
    (Resolve c6cxEnv (Resolve c6cxEnv (freshState [0, 1]) "m" 5).2 "m" 5).1
      = .ok ⟨false, 2⟩ ∧
    (⟨false, 1⟩ : IP) ≠ ⟨false, 2⟩ :=
  ⟨rfl, rfl, by decide⟩

/-- C6: on the DNS path — any host the local hosts source does not serve —
Resolve is idempotent: a second call from the state left by a successful
first call returns the same IP.  The first call's CNAME chase caches every
link it follows, so the second call's canonicalName walks the cached chain to
the terminal name, whose cached DNS answer yields the same address. -/
theorem c6_resolve_idempotent (env : REnv) (host : String) (d : Nat)
    (r0 : List Nat) (X : IP)
    (hlocal : ∀ s, resolveLocal env s host = (none, s))
    (hfirst : (Resolve env (freshState r0) host d).1 = .ok X) :
    (Resolve env (Resolve env (freshState r0) host d).2 host d).1 = .ok X := by
  rcases hpi : env.parseIP host with _ | ip
  · -- DNS path
    have hcanon : canonicalLoop env (freshState r0) host (normalName host) d
        [normalName host] = (.ok (normalName host), freshState r0) := by
      rw [canonicalLoop.eq_def]
      rfl
    have hstep : Resolve env (freshState r0) host d
        = resolveName env (freshState r0) (normalName host) (normalName host)
            d [] := by
      unfold Resolve canonicalName
      rw [hpi]
      dsimp only
      rw [hlocal (freshState r0)]
      dsimp only
      rw [hcanon]
    rcases hres : Resolve env (freshState r0) host d with ⟨rv, t⟩
    rw [hres] at hfirst
    have hrv : rv = .ok X := hfirst
    subst hrv
    rw [hstep] at hres
    have hokf : cacheOK env (freshState r0) := by
      intro n q r hq
      exact absurd hq (by simp [freshState, qGet])
    have h3f : ∀ x e, alGet (freshState r0).cname x = some e →
        (∃ tt, lookupPure env x = .ok (none, some (RR.CNAME e.name tt))) ∧
          e.name ∈ ([] : List String) ∧ env.now ≤ e.expiry := by
      intro x e hx
      exact absurd hx (by simp [freshState, alGet])
    have h4f : ∀ y, y ∈ [normalName host] →
        y ∈ ([] : List String) ∨
        (∃ e, alGet (freshState r0).cname y = some e) ∨ y = normalName host := by
      intro y hy
      exact Or.inr (Or.inr (List.mem_singleton.mp hy))
    obtain ⟨m, hloop, hterm, -⟩ :=
      chase_sim env (normalName host) host d (freshState r0) (normalName host)
        [] [normalName host] X t rfl hokf h3f h4f hres
    show (Resolve env t host d).1 = Except.ok X
    have hcanon2 : canonicalName env t host d = (.ok m, t) := by
      unfold canonicalName
      exact hloop
    have hterm2 : resolveName env t m m d [] = (.ok X, t) := by
      rw [resolveName.eq_def, hterm]
    have hstep2 : Resolve env t host d = (.ok X, t) := by
      unfold Resolve
      rw [hpi]
      dsimp only
      rw [hlocal t]
      dsimp only
      rw [hcanon2]
      dsimp only
      exact hterm2
    rw [hstep2]
  · -- IP literal: Resolve is a constant function of the state
    have hgen : ∀ s, Resolve env s host d = (.ok ip, s) := by
      intro s
      unfold Resolve
      rw [hpi]
    rw [hgen] at hfirst
    rw [hgen, hgen]
    exact hfirst

/-- Witness environment for C6: IPv4-only network, the BaseResolver answering
every question with one A record, the local hosts source disabled. -/
def c6wEnv : REnv :=
  { ip4avail := true, ip6avail := false,
    base := fun _ _ => some [RR.A ⟨false, 9⟩ 60],
    parseIP := fun _ => none, nssFiles := false,
    etcHosts := fun _ => [], now := 0 }

theorem c6_resolve_idempotent_witness :
    (∀ s, resolveLocal c6wEnv s "h" = (none, s)) ∧
    (Resolve c6wEnv (freshState []) "h" 5).1 = .ok ⟨false, 9⟩ ∧
    (Resolve c6wEnv (Resolve c6wEnv (freshState []) "h" 5).2 "h" 5).1
      = .ok ⟨false, 9⟩ :=
  ⟨fun s => rfl, rfl,
   c6_resolve_idempotent c6wEnv "h" 5 [] ⟨false, 9⟩ (fun s => rfl) rfl⟩
